import Mathlib

/-!
A shallow embedding of the synthetic-workflow recipe engine of
`wfcommons/wfgen/abstract_recipe.py` (class `WorkflowRecipe`), together with a
verification of the specification's claims about it.

Modelling conventions:
* Python `dict`s become association lists `List (String × _)`; lookup scans for
  the first matching key, update (`d[k] = v`) replaces in place or appends.
* The statistical sampler `generate_rvs` (an external collaborator per the spec)
  is a parameter `Ctx.sampler : RVSpec → ℚ`; Python floats are modelled as ℚ.
* `uuid.uuid4()` is modelled as a fresh-token counter `uuid_ctr` held in the
  engine state: a generated file name is the pair (token, extension); uuid
  strings have a fixed-length dot-free format, so the pair faithfully renders
  the concatenation `str(uuid.uuid4()) + extension`.
* Raised exceptions become `Except Err`; fallible recursion gets explicit fuel
  (running out of fuel is a distinguished error, never a success).
-/

namespace WfRecipe

/-- Modelled from the spec: the direction of a file relative to a task —
INPUT (consumed) or OUTPUT (produced) (spec §3, "Link"; the class `FileLink`
of `wfcommons.common.file` is not under src/). -/
inductive FileLink where
  | input : FileLink
  | output : FileLink
deriving DecidableEq, Repr

/-- A generated file name. In the source a name is `str(uuid.uuid4()) + extension`;
the random uuid token is modelled as a natural number drawn from the engine's
fresh counter, and the extension is kept verbatim. -/
structure FName where
  token : Nat
  ext : String
deriving DecidableEq, Repr

/-- Modelled from the spec: a File record
`{name, link: INPUT|OUTPUT, size: integer bytes}` (spec §3; the class `File` of
`wfcommons.common.file` is not under src/). -/
structure File where
  name : FName
  link : FileLink
  size : Int
deriving DecidableEq, Repr

/-- Modelled from the spec: a distribution recipe `{distribution, min, max}`
(spec §3 "Recipe entry"); its fields are opaque to the engine and only
forwarded to the sampler. -/
structure RVSpec where
  distribution : String
  min : ℚ
  max : ℚ
deriving DecidableEq, Repr

/-- Modelled from the spec: a per-category recipe entry
`{runtime, input: extension→spec, output: extension→spec}` (spec §3). -/
structure TaskRecipe where
  runtime : RVSpec
  input : List (String × RVSpec)
  output : List (String × RVSpec)
deriving DecidableEq, Repr

/-- Modelled from the spec: the Task record (spec §3; the class `Task` of
`wfcommons.common.task` is not under src/). Only the fields the generator
actually sets to varying values are kept; the constant/None fields of the
source constructor call are omitted. -/
structure Task where
  name : String
  task_id : String
  category : String
  runtime : ℚ
  cores : Nat
  program : String
  files : List File
deriving DecidableEq, Repr

/-- Python exceptions raised by the embedded code. `keyError` and `indexError`
are both `LookupError`-class exceptions in Python; `valueError` is the
`InvalidArgument`-kind error of the constructor. `outOfFuel` marks exhausted
recursion fuel (the Python original would recurse without bound there). -/
inductive Err where
  | valueError : String → Err
  | keyError : String → Err
  | indexError : Err
  | outOfFuel : Err
deriving DecidableEq, Repr

instance {ε α : Type} [DecidableEq ε] [DecidableEq α] : DecidableEq (Except ε α) :=
  fun a b =>
    match a, b with
    | Except.error e, Except.error e' =>
      if h : e = e' then Decidable.isTrue (h ▸ rfl)
      else Decidable.isFalse (fun hh => h (Except.error.inj hh))
    | Except.ok x, Except.ok y =>
      if h : x = y then Decidable.isTrue (h ▸ rfl)
      else Decidable.isFalse (fun hh => h (Except.ok.inj hh))
    | Except.error _, Except.ok _ => Decidable.isFalse (fun hh => Except.noConfusion hh)
    | Except.ok _, Except.error _ => Decidable.isFalse (fun hh => Except.noConfusion hh)

/-- The mutable state of one `WorkflowRecipe` engine instance: the fields set
by `WorkflowRecipe.__init__` (the logger and the `workflow_recipe = None`
placeholder are omitted), plus the uuid fresh-token counter. -/
structure EngineState where
  name : String
  data_footprint : Option Int
  num_tasks : Option Int
  runtime_factor : ℚ
  input_file_size_factor : ℚ
  output_file_size_factor : ℚ
  tasks_files : List (String × List File)
  tasks_files_names : List (String × List FName)
  task_id_counter : Nat
  tasks_map : List (String × Task)
  tasks_children : List (String × List String)
  tasks_parents : List (String × List String)
  tasks_output_files : List (String × List File)
  uuid_ctr : Nat
deriving DecidableEq, Repr

/-- The engine's external collaborators: the recipe table returned by the
abstract method `_workflow_recipe` and the sampler `generate_rvs`. -/
structure Ctx where
  recipe : List (String × TaskRecipe)
  sampler : RVSpec → ℚ

/-- First-match association-list lookup (Python `d[k]` / `k in d`). -/
def lookupA {α : Type} : List (String × α) → String → Option α
  | [], _ => none
  | (k', v) :: r, k => if k' = k then some v else lookupA r k

/-- Association-list store (Python `d[k] = v`): replace the first binding of
`k` in place, or append a new binding at the end (dict insertion order). -/
def upd {α : Type} : List (String × α) → String → α → List (String × α)
  | [], k, v => [(k, v)]
  | (k', v') :: r, k, v => if k' = k then (k, v) :: r else (k', v') :: upd r k v

/-- Python `d[k].append(x)` for a dict of lists, given that `k` is bound
(all call sites are guarded by a prior successful lookup; on an absent key
Python would raise `KeyError`, and this total version leaves the map
unchanged, a case the surrounding code never reaches). -/
def appendAt {α : Type} (m : List (String × List α)) (k : String) (v : α) :
    List (String × List α) :=
  m.map (fun kv => if kv.1 = k then (kv.1, kv.2 ++ [v]) else kv)

/-- Python `int(q)`: truncation toward zero. -/
def truncQ (q : ℚ) : Int := q.num.tdiv (q.den : Int)

/-- Python `float(format(x, '.3f'))`: rounding to three decimal places
(the binary-float rounding of `format` is modelled as exact rounding on ℚ;
no claim depends on the rounded value). -/
def round3 (q : ℚ) : ℚ := (round (q * 1000) : Int) / 1000

/-- Decimal digits of `n`, least significant first, with structural fuel
(`n` itself bounds the number of digits). -/
def digitsRevAux : Nat → Nat → List Char
  | 0, _ => []
  | _ + 1, 0 => []
  | fuel + 1, n + 1 => Nat.digitChar ((n + 1) % 10) :: digitsRevAux fuel ((n + 1) / 10)

/-- Decimal rendering of a natural number (what Python's `d` format prints). -/
def decRepr (n : Nat) : List Char :=
  if n = 0 then ['0'] else (digitsRevAux n n).reverse

/-- Python's format spec `08d`: the decimal digits left-padded with zeros to a
minimum width of eight characters. -/
def pad8 (n : Nat) : List Char :=
  List.replicate (8 - (decRepr n).length) '0' ++ decRepr n

/-- Is `pat` a prefix of `l`? (helper for Python `str.split`). -/
def isPreOf : List Char → List Char → Bool
  | [], _ => true
  | _ :: _, [] => false
  | a :: as, b :: bs => a == b && isPreOf as bs

/-- Python `str.split(sep)` for a non-empty separator, on character lists:
left-to-right scan, non-overlapping matches. `fuel` bounds the scan length
(callers pass the list length, which always suffices). -/
def splitOnAuxL (sep : List Char) : Nat → List Char → List Char → List (List Char)
  | _, acc, [] => [acc.reverse]
  | 0, acc, rest => [acc.reverse ++ rest]
  | fuel + 1, acc, c :: rest =>
    if isPreOf sep (c :: rest) then
      acc.reverse :: splitOnAuxL sep fuel [] (List.drop (sep.length - 1) rest)
    else
      splitOnAuxL sep fuel (c :: acc) rest

/-- Python `s.split(sep)` (non-empty `sep`). -/
def pySplit (s sep : String) : List String :=
  (splitOnAuxL sep.data s.data.length [] s.data).map (fun l => ⟨l⟩)

/-- The characters of `l` after its last `'.'`. -/
def afterLastDot (l : List Char) : List Char :=
  (l.reverse.takeWhile (fun c => c != '.')).reverse

/-- The extension descriptor the source computes for an existing file
(line 246: `path.splitext(f.name)[1] if '.' in f.name else f.name`).
A generated name is a dot-free uuid string followed by the stored extension,
so the name contains a `'.'` iff the extension does, and `splitext` returns
the suffix of the extension from its last dot. A dot-free name yields the
full `uuid + extension` string, which never coincides with a recipe's fixed
extension key (uuid collisions are out of scope, spec §3/§9): modelled as
`none`, which no key matches. -/
def extDesc (f : File) : Option String :=
  if '.' ∈ f.name.ext.data then some ⟨'.' :: afterLastDot f.name.ext.data⟩ else none

/-- A "proper" extension key: a dot followed by a dot-free suffix. For such
keys the descriptor of a file generated with that key is the key itself. -/
def goodExtB (k : String) : Bool :=
  match k.data with
  | '.' :: rest => !(rest.contains '.')
  | _ => false

/-- `WorkflowRecipe.__init__` (source lines 45-75): validates the three
factors, then initializes the engine state. -/
def WorkflowRecipe_init (name : String) (data_footprint num_tasks : Option Int)
    (runtime_factor input_file_size_factor output_file_size_factor : ℚ) :
    Except Err EngineState :=
  if runtime_factor ≤ 0 then
    Except.error (Err.valueError "The runtime factor should be a number higher than 0.0.")
  else if input_file_size_factor ≤ 0 then
    Except.error (Err.valueError "The input file size factor should be a number higher than 0.0.")
  else if output_file_size_factor ≤ 0 then
    Except.error (Err.valueError "The output file size factor should be a number higher than 0.0.")
  else
    Except.ok
      { name := name
        data_footprint := data_footprint
        num_tasks := num_tasks
        runtime_factor := runtime_factor
        input_file_size_factor := input_file_size_factor
        output_file_size_factor := output_file_size_factor
        tasks_files := []
        tasks_files_names := []
        task_id_counter := 1
        tasks_map := []
        tasks_children := []
        tasks_parents := []
        tasks_output_files := []
        uuid_ctr := 0 }

/-- `WorkflowRecipe._generate_task_name` (source lines 173-185): the name is
the prefix, an underscore, and the counter formatted `08d`; the counter is
incremented. -/
def _generate_task_name (s : EngineState) ( pre : String) : String × EngineState :=
  (pre ++ "_" ++ (⟨pad8 s.task_id_counter⟩ : String),
   { s with task_id_counter := s.task_id_counter + 1 })

/-- `WorkflowRecipe._generate_task` (source lines 128-171): look up the
category's recipe (KeyError if absent), sample the runtime, initialize this
task's file-tracking state, build the Task — whose `task_id` field is
`'0' + task_id.split('_0')[1]`, an IndexError when `'_0'` does not occur —
and register it in `tasks_map`. -/
def _generate_task (ctx : Ctx) (s : EngineState) (task_name task_id : String) :
    Except Err (Task × EngineState) :=
  match lookupA ctx.recipe task_name with
  | none => Except.error (Err.keyError task_name)
  | some task_recipe =>
    let runtime : ℚ := round3 (s.runtime_factor * ctx.sampler task_recipe.runtime)
    let s1 := { s with
      tasks_files := upd s.tasks_files task_id []
      tasks_files_names := upd s.tasks_files_names task_id [] }
    match (pySplit task_id "_0").drop 1 with
    | [] => Except.error Err.indexError
    | part :: _ =>
      let task : Task :=
        { name := task_id
          task_id := "0" ++ part
          category := task_name
          runtime := runtime
          cores := 1
          program := task_name
          files := [] }
      Except.ok (task, { s1 with tasks_map := upd s1.tasks_map task_id task })

/-- `WorkflowRecipe._generate_file` (source lines 257-277): sample a size as
`int(factor * generate_rvs(recipe[extension]))` — the input factor for INPUT
files, the output factor for OUTPUT files — and build a file whose name is a
fresh uuid token with the extension appended verbatim. -/
def _generate_file (ctx : Ctx) (s : EngineState) (extension : String)
    (recipe : List (String × RVSpec)) (link : FileLink) :
    Except Err (File × EngineState) :=
  match lookupA recipe extension with
  | none => Except.error (Err.keyError extension)
  | some spec =>
    let factor := if link = FileLink.input then s.input_file_size_factor
                  else s.output_file_size_factor
    let size := truncQ (factor * ctx.sampler spec)
    Except.ok
      ({ name := { token := s.uuid_ctr, ext := extension }, link := link, size := size },
       { s with uuid_ctr := s.uuid_ctr + 1 })

/-- The `for extension in recipe` loop of `_generate_files` (source lines
248-253): for each extension key not already present among this task's files
of this link, generate one file and append it to the task's file list and
file-name list. `extList` is the extension set computed once before the loop
and not updated inside it, exactly as in the source. -/
def genFilesGo (ctx : Ctx) (task_id : String) (whole : List (String × RVSpec))
    (link : FileLink) (extList : List String) :
    List (String × RVSpec) → List File → EngineState →
      Except Err (List File × EngineState)
  | [], acc, s => Except.ok (acc, s)
  | (ext, _) :: rest, acc, s =>
    if ext ∈ extList then genFilesGo ctx task_id whole link extList rest acc s
    else
      match _generate_file ctx s ext whole link with
      | Except.error e => Except.error e
      | Except.ok (file, s1) =>
        let s2 := { s1 with
          tasks_files := appendAt s1.tasks_files task_id file
          tasks_files_names := appendAt s1.tasks_files_names task_id file.name }
        genFilesGo ctx task_id whole link extList rest (acc ++ [file]) s2

/-- `WorkflowRecipe._generate_files` (source lines 227-255): scan the task's
existing files of this link (KeyError if the task has no file list), collect
their extension descriptors, then generate one file per missing extension key;
returns the existing files of the link followed by the newly generated ones. -/
def _generate_files (ctx : Ctx) (s : EngineState) (task_id : String)
    (recipe : List (String × RVSpec)) (link : FileLink) :
    Except Err (List File × EngineState) :=
  match lookupA s.tasks_files task_id with
  | none => Except.error (Err.keyError task_id)
  | some fs =>
    let existing := fs.filter (fun f => f.link == link)
    let extList := existing.filterMap extDesc
    genFilesGo ctx task_id recipe link extList recipe existing s

/-- The input-linking loop of `_generate_task_files` (source lines 215-220):
append each candidate input file — as a new INPUT File with the same name and
size — unless a file of that name is already listed for the task. -/
def appendInputs (s : EngineState) (tname : String) : List File → EngineState
  | [] => s
  | f :: rest =>
    if f.name ∈ (lookupA s.tasks_files_names tname).getD [] then
      appendInputs s tname rest
    else
      appendInputs
        { s with
          tasks_files := appendAt s.tasks_files tname
            { name := f.name, link := FileLink.input, size := f.size }
          tasks_files_names := appendAt s.tasks_files_names tname f.name }
        tname rest

/-- The parent-resolution loop of `_generate_task_files` (source lines
208-213), abstracted over the recursive call `g`: for each parent name, look
the parent Task up in `tasks_map` (KeyError if absent), resolve its output
files, record them in the output-file memo under the parent's name
(`setdefault` followed by assignment), and collect them as candidate inputs. -/
def resolveParentsF (g : Task → EngineState → Except Err (List File × EngineState)) :
    List String → EngineState → Except Err (List File × EngineState)
  | [], s => Except.ok ([], s)
  | p :: rest, s =>
    match lookupA s.tasks_map p with
    | none => Except.error (Err.keyError p)
    | some pt =>
      match g pt s with
      | Except.error e => Except.error e
      | Except.ok (outs, s1) =>
        let s2 := { s1 with tasks_output_files := upd s1.tasks_output_files p outs }
        match resolveParentsF g rest s2 with
        | Except.error e => Except.error e
        | Except.ok (ins, s3) => Except.ok (outs ++ ins, s3)

/-- `WorkflowRecipe._generate_task_files` (source lines 187-225), with fuel
for the unbounded parent recursion: memo check, recipe lookup by category,
generation of the task's OUTPUT files, recursive parent resolution, the
name-deduplicated input-append loop, generation of the remaining INPUT files;
returns the OUTPUT file list. The assignment `task.files =
self.tasks_files[task.name]` aliases the stored list and is a no-op on the
engine state. -/
def genTaskFiles (ctx : Ctx) : Nat → Task → EngineState →
    Except Err (List File × EngineState)
  | 0, _, _ => Except.error Err.outOfFuel
  | fuel + 1, task, s =>
    match lookupA s.tasks_output_files task.name with
    | some outs => Except.ok (outs, s)
    | none =>
      match lookupA ctx.recipe task.category with
      | none => Except.error (Err.keyError task.category)
      | some task_recipe =>
        match _generate_files ctx s task.name task_recipe.output FileLink.output with
        | Except.error e => Except.error e
        | Except.ok (output_files_list, s1) =>
          match resolveParentsF (genTaskFiles ctx fuel)
              ((lookupA s1.tasks_parents task.name).getD []) s1 with
          | Except.error e => Except.error e
          | Except.ok (input_files, s2) =>
            let s3 := appendInputs s2 task.name input_files
            match _generate_files ctx s3 task.name task_recipe.input FileLink.input with
            | Except.error e => Except.error e
            | Except.ok (_, s4) => Except.ok (output_files_list, s4)

/-- `WorkflowRecipe._get_files_by_task_and_link` (source lines 279-295);
`none` models the KeyError on an unknown task id. -/
def _get_files_by_task_and_link (s : EngineState) (task_id : String)
    (link : FileLink) : Option (List File) :=
  (lookupA s.tasks_files task_id).map (fun fs => fs.filter (fun f => f.link == link))

/-- The sequence of task names produced by repeated `_generate_task_name`
calls starting from state `s`, with an arbitrary prefix chosen per call. -/
def nthNameState (s : EngineState) (pres : Nat → String) :
    Nat → String × EngineState
  | 0 => _generate_task_name s (pres 0)
  | n + 1 => _generate_task_name (nthNameState s pres n).2 (pres (n + 1))

/-- Specification of the input-append loop: the files actually appended for a
candidate list, in encounter order, keeping only the first candidate of each
name whose name is not already in `seen`. -/
def firstWins (seen : List FName) : List File → List File
  | [] => []
  | f :: rest =>
    if f.name ∈ seen then firstWins seen rest
    else { name := f.name, link := FileLink.input, size := f.size } ::
      firstWins (seen ++ [f.name]) rest

/-- The file-name index a well-formed state carries: per task, the names of
its files in order. -/
def mirrorFiles (m : List (String × List File)) : List (String × List FName) :=
  m.map (fun kv => (kv.1, kv.2.map File.name))

/-- The engine-state fields `_generate_task_files` never touches. -/
def FilesOnly (s s' : EngineState) : Prop :=
  s'.name = s.name ∧ s'.data_footprint = s.data_footprint ∧
  s'.num_tasks = s.num_tasks ∧ s'.runtime_factor = s.runtime_factor ∧
  s'.input_file_size_factor = s.input_file_size_factor ∧
  s'.output_file_size_factor = s.output_file_size_factor ∧
  s'.task_id_counter = s.task_id_counter ∧ s'.tasks_map = s.tasks_map ∧
  s'.tasks_children = s.tasks_children ∧ s'.tasks_parents = s.tasks_parents

/-- The state well-formedness invariant maintained by the engine:
1. the file-name index mirrors the file lists exactly;
2. `tasks_files` has no duplicate keys;
3. tasks are registered in `tasks_map` under their own name;
4./5. every stored file name's uuid token is below the fresh counter;
6. each task's file names are pairwise distinct;
7. an OUTPUT file name determines its owning task and the file (generated
   names are globally fresh);
8. memoized output files are OUTPUT-linked members of their task's file list;
9. memoized output lists have pairwise-distinct names. -/
def Inv (s : EngineState) : Prop :=
  s.tasks_files_names = mirrorFiles s.tasks_files ∧
  (s.tasks_files.map Prod.fst).Nodup ∧
  (∀ kv ∈ s.tasks_map, kv.2.name = kv.1) ∧
  (∀ kv ∈ s.tasks_files, ∀ f ∈ kv.2, f.name.token < s.uuid_ctr) ∧
  (∀ kv ∈ s.tasks_output_files, ∀ f ∈ kv.2, f.name.token < s.uuid_ctr) ∧
  (∀ kv ∈ s.tasks_files, (kv.2.map File.name).Nodup) ∧
  (∀ kv ∈ s.tasks_files, ∀ kv' ∈ s.tasks_files, ∀ f ∈ kv.2, ∀ f' ∈ kv'.2,
    f.link = FileLink.output → f'.link = FileLink.output → f.name = f'.name →
    kv.1 = kv'.1 ∧ f = f') ∧
  (∀ kv ∈ s.tasks_output_files, ∀ f ∈ kv.2,
    f.link = FileLink.output ∧ f ∈ (lookupA s.tasks_files kv.1).getD []) ∧
  (∀ kv ∈ s.tasks_output_files, (kv.2.map File.name).Nodup)

/-- Acyclicity of the parent-adjacency map, witnessed by a depth function
that strictly decreases from child to parent. The spec (§4.2 step 3, §9)
makes acyclicity a precondition of the workflow assembler. -/
def ParentDepth (s : EngineState) (D : String → Nat) : Prop :=
  ∀ kv ∈ s.tasks_parents, ∀ p ∈ kv.2, D p < D kv.1

/-- How one `_generate_task_files` activation with task name `tname` may
change the engine state: the uuid counter only grows; the factors, the task
counter, the task map and the parent map are untouched; task file lists grow
by appending files with fresh uuid tokens, and a list other than `tname`'s
grows only when its task was resolved as a parent (its memo entry appearing
in the process); no file-list key appears or disappears; memo entries are
stable once written, and new memo entries are strictly below `tname` in the
parent depth order. -/
structure Evol (D : String → Nat) (tname : String) (s s' : EngineState) : Prop where
  ctr_le : s.uuid_ctr ≤ s'.uuid_ctr
  rfac : s'.runtime_factor = s.runtime_factor
  ifac : s'.input_file_size_factor = s.input_file_size_factor
  ofac : s'.output_file_size_factor = s.output_file_size_factor
  tid : s'.task_id_counter = s.task_id_counter
  tmap : s'.tasks_map = s.tasks_map
  tpar : s'.tasks_parents = s.tasks_parents
  grow : ∀ k fs, lookupA s.tasks_files k = some fs →
    ∃ r, lookupA s'.tasks_files k = some (fs ++ r) ∧
      (k ≠ tname → r ≠ [] →
        lookupA s.tasks_output_files k = none ∧
        lookupA s'.tasks_output_files k ≠ none)
  knone : ∀ k, lookupA s.tasks_files k = none → lookupA s'.tasks_files k = none
  memoS : ∀ k O, lookupA s.tasks_output_files k = some O →
    lookupA s'.tasks_output_files k = some O
  memoNew : ∀ k, lookupA s.tasks_output_files k = none →
    lookupA s'.tasks_output_files k ≠ none → D k < D tname

/-- The full postcondition of a successful `_generate_task_files` call on
task `t`: the invariant is maintained, the state evolves as described by
`Evol`, the returned OUTPUT list consists of OUTPUT-linked files of `t` with
pairwise-distinct names, and — when the call was not a memo hit — the
returned list is exactly `t`'s OUTPUT files, `t` itself is still not
memoized, every declared parent is memoized, and (when `t`'s file list held
only OUTPUT files at entry, as it does for a freshly generated task) every
memoized parent output appears among `t`'s INPUT files with the same name
and size. -/
structure GTFPost (ctx : Ctx) (D : String → Nat) (t : Task) (s : EngineState)
    (outs : List File) (s' : EngineState) : Prop where
  inv : Inv s'
  evol : Evol D t.name s s'
  outs_mem : ∀ f ∈ outs, f.link = FileLink.output ∧
    f ∈ (lookupA s'.tasks_files t.name).getD []
  outs_nodup : (outs.map File.name).Nodup
  fo : FilesOnly s s'
  miss_filter : lookupA s.tasks_output_files t.name = none →
    ∃ fs', lookupA s'.tasks_files t.name = some fs' ∧
      outs = fs'.filter (fun f => f.link == FileLink.output)
  miss_self : lookupA s.tasks_output_files t.name = none →
    lookupA s'.tasks_output_files t.name = none
  miss_parents : lookupA s.tasks_output_files t.name = none →
    ∀ p ∈ (lookupA s.tasks_parents t.name).getD [], ∃ O,
      lookupA s'.tasks_output_files p = some O
  miss_inputs : lookupA s.tasks_output_files t.name = none →
    (∀ f ∈ (lookupA s.tasks_files t.name).getD [], f.link = FileLink.output) →
    ∀ p ∈ (lookupA s.tasks_parents t.name).getD [], ∃ O,
      lookupA s'.tasks_output_files p = some O ∧
      ∀ f ∈ O, ∃ g, g ∈ (lookupA s'.tasks_files t.name).getD [] ∧
        g.link = FileLink.input ∧ g.name = f.name ∧ g.size = f.size
  miss_pmap : lookupA s.tasks_output_files t.name = none →
    ∀ p ∈ (lookupA s.tasks_parents t.name).getD [], ∃ pt,
      lookupA s.tasks_map p = some pt
  miss_cover_out : lookupA s.tasks_output_files t.name = none →
    ∀ rec, lookupA ctx.recipe t.category = some rec →
    ∀ ks ∈ rec.output, goodExtB ks.1 = true →
      ks.1 ∈ (((lookupA s'.tasks_files t.name).getD []).filter
        (fun f => f.link == FileLink.output)).filterMap extDesc
  miss_cover_in : lookupA s.tasks_output_files t.name = none →
    ∀ rec, lookupA ctx.recipe t.category = some rec →
    ∀ ks ∈ rec.input, goodExtB ks.1 = true →
      ks.1 ∈ (((lookupA s'.tasks_files t.name).getD []).filter
        (fun f => f.link == FileLink.input)).filterMap extDesc

/-- Postcondition of the file-generation loop of `_generate_files` for link
`L` on task `tid`: the task's file list grew from `fs0` by the freshly
generated files `new` (their uuid tokens lie in the counter's advance, their
names are pairwise distinct), no other task's files, no memo entry and no
other engine field changed. -/
structure GenFilesPost (L : FileLink) (tid : String) (s s' : EngineState)
    (fs0 new : List File) : Prop where
  files_tid : lookupA s'.tasks_files tid = some (fs0 ++ new)
  files_other : ∀ j, j ≠ tid → lookupA s'.tasks_files j = lookupA s.tasks_files j
  ctr_le : s.uuid_ctr ≤ s'.uuid_ctr
  new_spec : ∀ f ∈ new, f.link = L ∧ s.uuid_ctr ≤ f.name.token ∧
    f.name.token < s'.uuid_ctr
  new_nodup : (new.map File.name).Nodup
  memo_eq : s'.tasks_output_files = s.tasks_output_files
  fo : FilesOnly s s'

/-! ### Concrete fixtures used by the witness theorems -/

/-- A constant distribution entry for the witness scenarios. -/
def wSpec : RVSpec := { distribution := "uniform", min := 1, max := 10 }

/-- The recipe entry of the witness category "comp": one `.o` output file,
no declared inputs. -/
def wRec : TaskRecipe := { runtime := wSpec, input := [], output := [(".o", wSpec)] }

/-- A one-category recipe table ("comp": one `.o` output, no inputs) with a
constant sampler. -/
def wCtx : Ctx :=
  { recipe := [("comp", wRec)]
    sampler := fun _ => 3 }

/-- The freshly initialized engine state of the witness scenarios. -/
def sInit : EngineState :=
  { name := "wf"
    data_footprint := none
    num_tasks := none
    runtime_factor := 1
    input_file_size_factor := 1
    output_file_size_factor := 1
    tasks_files := []
    tasks_files_names := []
    task_id_counter := 1
    tasks_map := []
    tasks_children := []
    tasks_parents := []
    tasks_output_files := []
    uuid_ctr := 0 }

/-- The parent task of the witness scenario. -/
def wTP : Task :=
  { name := "comp_00000001", task_id := "00000001", category := "comp",
    runtime := 3, cores := 1, program := "comp", files := [] }

/-- The child task of the witness scenario. -/
def wTC : Task :=
  { name := "comp_00000002", task_id := "00000002", category := "comp",
    runtime := 3, cores := 1, program := "comp", files := [] }

/-- Witness engine state: both tasks generated, the child declared to have
the parent as its single parent, nothing resolved yet. -/
def wSC : EngineState :=
  { sInit with
    tasks_files := [("comp_00000001", []), ("comp_00000002", [])]
    tasks_files_names := [("comp_00000001", []), ("comp_00000002", [])]
    tasks_map := [("comp_00000001", wTP), ("comp_00000002", wTC)]
    tasks_parents := [("comp_00000002", ["comp_00000001"])] }

/-- A depth function witnessing acyclicity of `wSC`'s parent map. -/
def wD : String → Nat := fun k => if k = "comp_00000002" then 1 else 0

/-- A recipe table whose single category has a dot-free OUTPUT extension key
(`"obj"`), used to exhibit the failure of idempotence. -/
def bCtx : Ctx :=
  { recipe := [("badc", { runtime := wSpec, input := [], output := [("obj", wSpec)] })]
    sampler := fun _ => 3 }

/-- A task of the dot-free-extension category. -/
def wTB : Task :=
  { name := "badt_00000001", task_id := "00000001", category := "badc",
    runtime := 3, cores := 1, program := "badc", files := [] }

/-- Engine state with the dot-free-extension task generated (no parents). -/
def sB0 : EngineState :=
  { sInit with
    tasks_files := [("badt_00000001", [])]
    tasks_files_names := [("badt_00000001", [])]
    tasks_map := [("badt_00000001", wTB)] }

/-- The task produced by `_generate_task` on the id `"x_0y_0z"` (two
occurrences of the separator `"_0"`). -/
def tX : Task :=
  { name := "x_0y_0z", task_id := "0y", category := "comp",
    runtime := 3, cores := 1, program := "comp", files := [] }

/-- The state produced alongside `tX`. -/
def sX : EngineState :=
  { sInit with
    tasks_files := [("x_0y_0z", [])]
    tasks_files_names := [("x_0y_0z", [])]
    tasks_map := [("x_0y_0z", tX)] }

/-- The OUTPUT file the witness run generates for the child (uuid token 0). -/
def wFout0 : File := { name := ⟨0, ".o"⟩, link := FileLink.output, size := 3 }

/-- The OUTPUT file the witness run generates for the parent (uuid token 1). -/
def wFout1 : File := { name := ⟨1, ".o"⟩, link := FileLink.output, size := 3 }

/-- The INPUT copy of the parent's output appended to the child. -/
def wFin1 : File := { name := ⟨1, ".o"⟩, link := FileLink.input, size := 3 }

/-- The OUTPUT list returned by the witness run on the child. -/
def wOuts : List File := [wFout0]

/-- The engine state after the witness run of `_generate_task_files` on the
child `wTC` from `wSC`: both tasks carry their generated files, the parent
is memoized, and two uuid tokens were consumed. -/
def wSfin : EngineState :=
  { wSC with
    tasks_files := [("comp_00000001", [wFout1]), ("comp_00000002", [wFout0, wFin1])]
    tasks_files_names := [("comp_00000001", [⟨1, ".o"⟩]),
      ("comp_00000002", [⟨0, ".o"⟩, ⟨1, ".o"⟩])]
    tasks_output_files := [("comp_00000001", [wFout1])]
    uuid_ctr := 2 }

/-- The engine state after running `_generate_task_files` on the parentless
task `wTP` from `wSC`: its OUTPUT file was generated, yet the output-file
memo is still empty. -/
def sPfin : EngineState :=
  { wSC with
    tasks_files := [("comp_00000001", [wFout0]), ("comp_00000002", [])]
    tasks_files_names := [("comp_00000001", [⟨0, ".o"⟩]), ("comp_00000002", [])]
    uuid_ctr := 1 }

/-- The OUTPUT file of the dot-free-extension run (uuid token 0). -/
def bF0 : File := { name := ⟨0, "obj"⟩, link := FileLink.output, size := 3 }

/-- The second OUTPUT file the dot-free-extension task receives on the
second call (uuid token 1). -/
def bF1 : File := { name := ⟨1, "obj"⟩, link := FileLink.output, size := 3 }

/-- The state after the first `_generate_task_files` call on the
dot-free-extension task. -/
def sB1 : EngineState :=
  { sB0 with
    tasks_files := [("badt_00000001", [bF0])]
    tasks_files_names := [("badt_00000001", [⟨0, "obj"⟩])]
    uuid_ctr := 1 }

/-- The state after the second call on the dot-free-extension task: a second
file for the same extension key was generated. -/
def sB2 : EngineState :=
  { sB0 with
    tasks_files := [("badt_00000001", [bF0, bF1])]
    tasks_files_names := [("badt_00000001", [⟨0, "obj"⟩, ⟨1, "obj"⟩])]
    uuid_ctr := 2 }

/-- A task whose category is absent from the witness recipe table. -/
def wTBad : Task :=
  { name := "bad_00000001", task_id := "00000001", category := "nope",
    runtime := 3, cores := 1, program := "nope", files := [] }

/-! ### Association-list lemmas -/

theorem lookupA_upd_self {α : Type} (m : List (String × α)) (k : String) (v : α) :
    lookupA (upd m k v) k = some v := by
  induction m with
  | nil => simp [upd, lookupA]
  | cons kv r ih =>
    obtain ⟨a, b⟩ := kv
    by_cases h : a = k
    · simp [upd, h, lookupA]
    · simp [upd, h, lookupA, ih]

theorem lookupA_upd_ne {α : Type} (m : List (String × α)) (k j : String) (v : α)
    (h : j ≠ k) : lookupA (upd m k v) j = lookupA m j := by
  have h' : ¬(k = j) := fun he => h he.symm
  induction m with
  | nil => simp [upd, lookupA, h']
  | cons kv r ih =>
    obtain ⟨a, b⟩ := kv
    by_cases hk : a = k
    · subst hk
      simp [upd, lookupA, h']
    · simp [upd, hk, lookupA, ih]

theorem upd_of_lookupA_self {α : Type} (m : List (String × α)) (k : String) (v : α)
    (h : lookupA m k = some v) : upd m k v = m := by
  induction m with
  | nil => simp [lookupA] at h
  | cons kv r ih =>
    obtain ⟨a, b⟩ := kv
    by_cases hk : a = k
    · simp [lookupA, hk] at h
      simp [upd, hk, h]
    · simp [lookupA, hk] at h
      simp [upd, hk, ih h]

theorem mem_of_lookupA {α : Type} (m : List (String × α)) (k : String) (v : α)
    (h : lookupA m k = some v) : (k, v) ∈ m := by
  induction m with
  | nil => simp [lookupA] at h
  | cons kv r ih =>
    obtain ⟨a, b⟩ := kv
    by_cases hk : a = k
    · simp [lookupA, hk] at h
      simp [hk, h]
    · simp [lookupA, hk] at h
      exact List.mem_cons_of_mem _ (ih h)

theorem lookupA_of_mem_nodup {α : Type} (m : List (String × α)) (k : String) (v : α)
    (hmem : (k, v) ∈ m) (hnd : (m.map Prod.fst).Nodup) : lookupA m k = some v := by
  induction m with
  | nil => simp at hmem
  | cons kv r ih =>
    obtain ⟨a, b⟩ := kv
    simp only [List.map_cons, List.nodup_cons] at hnd
    rcases List.mem_cons.mp hmem with h | h
    · rw [Prod.mk.injEq] at h
      simp [lookupA, h.1.symm, h.2]
    · have hne : a ≠ k := by
        intro he
        subst he
        exact hnd.1 (by simpa using List.mem_map_of_mem Prod.fst h)
      simp [lookupA, hne, ih h hnd.2]

theorem lookupA_eq_none_iff {α : Type} (m : List (String × α)) (k : String) :
    lookupA m k = none ↔ k ∉ m.map Prod.fst := by
  induction m with
  | nil => simp [lookupA]
  | cons kv r ih =>
    obtain ⟨a, b⟩ := kv
    by_cases hk : a = k
    · simp [lookupA, hk]
    · rw [lookupA, if_neg hk, ih]
      constructor
      · intro hn h
        rw [List.map_cons, List.mem_cons] at h
        rcases h with h1 | h1
        · exact hk h1.symm
        · exact hn h1
      · intro hn h
        exact hn (by simp [h])

theorem appendAt_cons {α : Type} (a : String) (b : List α) (r : List (String × List α))
    (k : String) (v : α) :
    appendAt ((a, b) :: r) k v =
      (if a = k then (a, b ++ [v]) else (a, b)) :: appendAt r k v := by
  by_cases h : a = k
  · simp [appendAt, h]
  · simp [appendAt, h]

theorem lookupA_appendAt {α : Type} (m : List (String × List α)) (k j : String) (v : α) :
    lookupA (appendAt m k v) j =
      (lookupA m j).map (fun fs => if j = k then fs ++ [v] else fs) := by
  induction m with
  | nil => simp [appendAt, lookupA]
  | cons kv r ih =>
    obtain ⟨a, b⟩ := kv
    rw [appendAt_cons]
    by_cases hak : a = k
    · rw [if_pos hak]
      by_cases haj : a = j
      · subst haj
        rw [lookupA, if_pos rfl, lookupA, if_pos rfl]
        simp [hak]
      · rw [lookupA, if_neg haj, lookupA, if_neg haj, ih]
    · rw [if_neg hak]
      by_cases haj : a = j
      · subst haj
        rw [lookupA, if_pos rfl, lookupA, if_pos rfl]
        simp [fun h : a = k => hak h]
      · rw [lookupA, if_neg haj, lookupA, if_neg haj, ih]

theorem appendAt_keys {α : Type} (m : List (String × List α)) (k : String) (v : α) :
    (appendAt m k v).map Prod.fst = m.map Prod.fst := by
  induction m with
  | nil => simp [appendAt]
  | cons kv r ih =>
    obtain ⟨a, b⟩ := kv
    by_cases hk : a = k <;> simp_all [appendAt]

theorem mem_appendAt {α : Type} (m : List (String × List α)) (k : String) (v : α)
    (kv' : String × List α) (h : kv' ∈ appendAt m k v) :
    ∃ kv ∈ m, kv'.1 = kv.1 ∧ (kv' = kv ∨ (kv.1 = k ∧ kv'.2 = kv.2 ++ [v])) := by
  rcases List.mem_map.mp h with ⟨kv, hmem, heq⟩
  by_cases hk : kv.1 = k
  · refine ⟨kv, hmem, ?_, Or.inr ⟨hk, ?_⟩⟩
    · rw [← heq, if_pos hk]
    · rw [← heq, if_pos hk]
  · refine ⟨kv, hmem, ?_, Or.inl ?_⟩
    · rw [← heq, if_neg hk]
    · rw [← heq, if_neg hk]

theorem mem_upd {α : Type} (m : List (String × α)) (k : String) (v : α)
    (kv' : String × α) (h : kv' ∈ upd m k v) : kv' ∈ m ∨ kv' = (k, v) := by
  induction m with
  | nil =>
    simp [upd] at h
    simp [h]
  | cons kv r ih =>
    obtain ⟨a, b⟩ := kv
    by_cases hk : a = k
    · rw [upd, if_pos hk] at h
      rcases List.mem_cons.mp h with h | h
      · exact Or.inr h
      · exact Or.inl (List.mem_cons_of_mem _ h)
    · rw [upd, if_neg hk] at h
      rcases List.mem_cons.mp h with h | h
      · exact Or.inl (h ▸ List.mem_cons_self _ _)
      · rcases ih h with h | h
        · exact Or.inl (List.mem_cons_of_mem _ h)
        · exact Or.inr h

theorem upd_keys_of_mem {α : Type} (m : List (String × α)) (k : String) (v : α)
    (h : k ∈ m.map Prod.fst) : (upd m k v).map Prod.fst = m.map Prod.fst := by
  induction m with
  | nil => simp at h
  | cons kv r ih =>
    obtain ⟨a, b⟩ := kv
    by_cases hk : a = k
    · simp [upd, hk]
    · have h2 : k = a ∨ k ∈ r.map Prod.fst := by
        rw [List.map_cons, List.mem_cons] at h
        exact h
      have hr : k ∈ r.map Prod.fst := h2.resolve_left (fun he => hk he.symm)
      simp [upd, hk, ih hr]

theorem upd_keys_of_not_mem {α : Type} (m : List (String × α)) (k : String) (v : α)
    (h : k ∉ m.map Prod.fst) : (upd m k v).map Prod.fst = m.map Prod.fst ++ [k] := by
  induction m with
  | nil => simp [upd]
  | cons kv r ih =>
    obtain ⟨a, b⟩ := kv
    simp only [List.map_cons, List.mem_cons] at h
    push_neg at h
    have hak : ¬(a = k) := fun h' => h.1 h'.symm
    simp [upd, hak, ih h.2]

/-! ### Decimal-rendering lemmas (for the task-name format `08d`) -/

theorem digitsRevAux_length_le (fuel : Nat) :
    ∀ n k, n ≤ fuel → n < 10 ^ k → (digitsRevAux fuel n).length ≤ k := by
  induction fuel with
  | zero => intro n k _ _; simp [digitsRevAux]
  | succ fuel ih =>
    intro n k hn hk
    cases n with
    | zero => simp [digitsRevAux]
    | succ m =>
      cases k with
      | zero => omega
      | succ k' =>
        simp only [digitsRevAux, List.length_cons]
        have hd : (m + 1) / 10 < 10 ^ k' := by
          have h10 : m + 1 < 10 * 10 ^ k' := by
            have : (10 : Nat) ^ (k' + 1) = 10 * 10 ^ k' := by ring
            omega
          exact Nat.div_lt_of_lt_mul h10
        have hf : (m + 1) / 10 ≤ fuel := by
          have := Nat.div_lt_self (Nat.succ_pos m) (by norm_num : (1 : Nat) < 10)
          omega
        have := ih ((m + 1) / 10) k' hf hd
        omega

theorem decRepr_length_le (m : Nat) (h : m < 100000000) : (decRepr m).length ≤ 8 := by
  unfold decRepr
  split
  · simp
  · rw [List.length_reverse]
    exact digitsRevAux_length_le m m 8 le_rfl (by norm_num at h ⊢; omega)

theorem pad8_length (m : Nat) (h : m < 100000000) : (pad8 m).length = 8 := by
  have hd := decRepr_length_le m h
  simp only [pad8, List.length_append, List.length_replicate]
  omega

/-! ### Mirror and extension lemmas -/

theorem lookupA_mapSnd {α β : Type} (g : α → β) (m : List (String × α)) (k : String) :
    lookupA (m.map (fun kv => (kv.1, g kv.2))) k = (lookupA m k).map g := by
  induction m with
  | nil => rfl
  | cons kv r ih =>
    obtain ⟨a, b⟩ := kv
    by_cases h : a = k
    · simp [lookupA, h]
    · simp [lookupA, h, ih]

theorem lookupA_mirror (m : List (String × List File)) (k : String) :
    lookupA (mirrorFiles m) k = (lookupA m k).map (List.map File.name) :=
  lookupA_mapSnd _ m k

theorem mirror_appendAt (m : List (String × List File)) (k : String) (f : File) :
    mirrorFiles (appendAt m k f) = appendAt (mirrorFiles m) k f.name := by
  simp only [mirrorFiles, appendAt, List.map_map]
  congr 1
  funext kv
  obtain ⟨a, b⟩ := kv
  by_cases h : a = k
  · simp [Function.comp, h]
  · simp [Function.comp, h]

theorem takeWhile_all_append (p : Char → Bool) (l₁ l₂ : List Char)
    (h : ∀ a ∈ l₁, p a = true) :
    (l₁ ++ l₂).takeWhile p = l₁ ++ l₂.takeWhile p := by
  induction l₁ with
  | nil => simp
  | cons c r ih =>
    have hc := h c (List.mem_cons_self _ _)
    simp only [List.cons_append, List.takeWhile_cons, hc, if_true]
    rw [ih (fun a ha => h a (List.mem_cons_of_mem _ ha))]

theorem afterLastDot_dotfree (rest : List Char) (hnotin : '.' ∉ rest) :
    afterLastDot ('.' :: rest) = rest := by
  unfold afterLastDot
  have hrev : ('.' :: rest).reverse = rest.reverse ++ ['.'] := by simp
  rw [hrev]
  rw [takeWhile_all_append _ _ _ (fun a ha => by
    have ham : a ∈ rest := List.mem_reverse.mp ha
    have hne : a ≠ '.' := fun he => hnotin (he ▸ ham)
    simpa using hne)]
  simp [List.takeWhile]

theorem extDesc_goodExt (f : File) (h : goodExtB f.name.ext = true) :
    extDesc f = some f.name.ext := by
  generalize hg : f.name.ext = k
  rw [hg] at h
  unfold goodExtB at h
  split at h
  case h_2 => simp at h
  case h_1 rest heq =>
    simp only [Bool.not_eq_true'] at h
    have hnotin : '.' ∉ rest := by
      intro hmem
      rw [List.contains_eq_any_beq] at h
      simp [List.any_eq_true] at h
      exact h '.' hmem rfl
    unfold extDesc
    rw [hg, heq]
    rw [if_pos (List.mem_cons_self _ _)]
    rw [afterLastDot_dotfree rest hnotin]
    show some (⟨'.' :: rest⟩ : String) = some k
    rw [← heq]

/-! ### FilesOnly and invariant step lemmas -/

theorem filesOnly_refl (s : EngineState) : FilesOnly s s :=
  ⟨rfl, rfl, rfl, rfl, rfl, rfl, rfl, rfl, rfl, rfl⟩

theorem filesOnly_trans {s1 s2 s3 : EngineState} (h1 : FilesOnly s1 s2)
    (h2 : FilesOnly s2 s3) : FilesOnly s1 s3 := by
  obtain ⟨a1, b1, c1, d1, e1, f1, g1, hm1, i1, j1⟩ := h1
  obtain ⟨a2, b2, c2, d2, e2, f2, g2, hm2, i2, j2⟩ := h2
  exact ⟨a2.trans a1, b2.trans b1, c2.trans c1, d2.trans d1, e2.trans e1,
    f2.trans f1, g2.trans g1, hm2.trans hm1, i2.trans i1, j2.trans j1⟩

/-- Decomposing membership in a file map after an append: a file of an entry
of the new map is either a file of the corresponding old entry, or it is the
appended file sitting in the entry of the appended key. -/
theorem appendAt_file_cases (m : List (String × List File)) (tid : String)
    (f : File) (kv : String × List File) (hkv : kv ∈ appendAt m tid f)
    (g : File) (hg : g ∈ kv.2) :
    (∃ kv0 ∈ m, kv.1 = kv0.1 ∧ g ∈ kv0.2) ∨ (kv.1 = tid ∧ g = f) := by
  rcases mem_appendAt _ _ _ _ hkv with ⟨kv0, h0, hkeq, hcase⟩
  rcases hcase with he | ⟨hktid, hval⟩
  · exact Or.inl ⟨kv0, h0, hkeq, he ▸ hg⟩
  · rw [hval] at hg
    rcases List.mem_append.mp hg with hgo | hgf
    · exact Or.inl ⟨kv0, h0, hkeq, hgo⟩
    · exact Or.inr ⟨hkeq.trans hktid, List.mem_singleton.mp hgf⟩

/-- Appending a freshly generated file (uuid token = current counter) to a
task's file list, recording its name, and advancing the counter preserves
the invariant. -/
theorem Inv_appendFresh (s : EngineState) (tid : String) (f : File)
    (fs : List File) (hInv : Inv s) (hk : lookupA s.tasks_files tid = some fs)
    (hf : f.name.token = s.uuid_ctr) :
    Inv { s with tasks_files := appendAt s.tasks_files tid f,
                 tasks_files_names := appendAt s.tasks_files_names tid f.name,
                 uuid_ctr := s.uuid_ctr + 1 } := by
  obtain ⟨hnf, hkeys, hmap, htf, htm, hpn, hoi, hms, hmn⟩ := hInv
  refine ⟨?_, ?_, ?_, ?_, ?_, ?_, ?_, ?_, ?_⟩
  · show appendAt s.tasks_files_names tid f.name =
      mirrorFiles (appendAt s.tasks_files tid f)
    rw [hnf, mirror_appendAt]
  · show ((appendAt s.tasks_files tid f).map Prod.fst).Nodup
    rw [appendAt_keys]
    exact hkeys
  · exact hmap
  · intro kv hkv g hg
    rcases appendAt_file_cases _ _ _ _ hkv _ hg with ⟨kv0, h0, _, hmem⟩ | ⟨_, hgf⟩
    · exact Nat.lt_succ_of_lt (htf kv0 h0 g hmem)
    · rw [hgf, hf]
      exact Nat.lt_succ_self _
  · intro kv hkv g hg
    exact Nat.lt_succ_of_lt (htm kv hkv g hg)
  · intro kv hkv
    rcases mem_appendAt _ _ _ _ hkv with ⟨kv0, h0, _, hcase⟩
    rcases hcase with he | ⟨_, hval⟩
    · rw [he]
      exact hpn kv0 h0
    · rw [hval, List.map_append, List.map_singleton]
      rw [List.nodup_append]
      refine ⟨hpn kv0 h0, List.nodup_singleton _, ?_⟩
      intro nm hnm hnm1
      rcases List.mem_map.mp hnm with ⟨g, hgm, hgeq⟩
      have h1 : g.name.token < s.uuid_ctr := htf kv0 h0 g hgm
      have h2 : nm = f.name := List.mem_singleton.mp hnm1
      rw [h2] at hgeq
      rw [hgeq, hf] at h1
      exact Nat.lt_irrefl _ h1
  · intro kv hkv kv' hkv' g hg g' hg' hl hl' hname
    rcases appendAt_file_cases _ _ _ _ hkv _ hg with ⟨kv0, h0, hke, hmem⟩ | ⟨hke, hgf⟩
    · rcases appendAt_file_cases _ _ _ _ hkv' _ hg' with
        ⟨kv0', h0', hke', hmem'⟩ | ⟨hke', hgf'⟩
      · have := hoi kv0 h0 kv0' h0' g hmem g' hmem' hl hl' hname
        exact ⟨hke.trans (this.1.trans hke'.symm), this.2⟩
      · exfalso
        have h1 : g.name.token < s.uuid_ctr := htf kv0 h0 g hmem
        rw [hname, hgf', hf] at h1
        exact Nat.lt_irrefl _ h1
    · rcases appendAt_file_cases _ _ _ _ hkv' _ hg' with
        ⟨kv0', h0', hke', hmem'⟩ | ⟨hke', hgf'⟩
      · exfalso
        have h1 : g'.name.token < s.uuid_ctr := htf kv0' h0' g' hmem'
        rw [← hname, hgf, hf] at h1
        exact Nat.lt_irrefl _ h1
      · exact ⟨hke.trans hke'.symm, hgf.trans hgf'.symm⟩
  · intro kv hkv g hg
    have hold := hms kv hkv g hg
    refine ⟨hold.1, ?_⟩
    show g ∈ (lookupA (appendAt s.tasks_files tid f) kv.1).getD []
    rw [lookupA_appendAt]
    cases hlk : lookupA s.tasks_files kv.1 with
    | none =>
      rw [hlk] at hold
      exact absurd hold.2 (List.not_mem_nil g)
    | some fs0 =>
      rw [hlk] at hold
      show g ∈ (if kv.1 = tid then fs0 ++ [f] else fs0)
      by_cases he : kv.1 = tid
      · rw [if_pos he]
        exact List.mem_append_left _ (by simpa using hold.2)
      · rw [if_neg he]
        simpa using hold.2
  · exact hmn

/-- Appending an INPUT file copied from a memoized parent output (so its
token is below the counter) under the not-already-present name guard
preserves the invariant. -/
theorem Inv_appendInput (s : EngineState) (tid : String) (g : File)
    (fs : List File) (hInv : Inv s) (hk : lookupA s.tasks_files tid = some fs)
    (hl : g.link = FileLink.input) (htok : g.name.token < s.uuid_ctr)
    (hni : g.name ∉ fs.map File.name) :
    Inv { s with tasks_files := appendAt s.tasks_files tid g,
                 tasks_files_names := appendAt s.tasks_files_names tid g.name } := by
  obtain ⟨hnf, hkeys, hmap, htf, htm, hpn, hoi, hms, hmn⟩ := hInv
  refine ⟨?_, ?_, ?_, ?_, ?_, ?_, ?_, ?_, ?_⟩
  · show appendAt s.tasks_files_names tid g.name =
      mirrorFiles (appendAt s.tasks_files tid g)
    rw [hnf, mirror_appendAt]
  · show ((appendAt s.tasks_files tid g).map Prod.fst).Nodup
    rw [appendAt_keys]
    exact hkeys
  · exact hmap
  · intro kv hkv g1 hg1
    rcases appendAt_file_cases _ _ _ _ hkv _ hg1 with ⟨kv0, h0, _, hmem⟩ | ⟨_, hgf⟩
    · exact htf kv0 h0 g1 hmem
    · rw [hgf]
      exact htok
  · exact htm
  · intro kv hkv
    rcases mem_appendAt _ _ _ _ hkv with ⟨kv0, h0, _, hcase⟩
    rcases hcase with he | ⟨hktid, hval⟩
    · rw [he]
      exact hpn kv0 h0
    · have hv0 : kv0.2 = fs := by
        have hlk := lookupA_of_mem_nodup s.tasks_files kv0.1 kv0.2
          (by rw [Prod.mk.eta]; exact h0) hkeys
        rw [hktid, hk] at hlk
        exact (Option.some.inj hlk).symm
      rw [hval, hv0, List.map_append, List.map_singleton, List.nodup_append]
      refine ⟨hv0 ▸ hpn kv0 h0, List.nodup_singleton _, ?_⟩
      intro nm hnm hnm1
      have h2 : nm = g.name := List.mem_singleton.mp hnm1
      rw [h2] at hnm
      exact hni hnm
  · intro kv hkv kv' hkv' g1 hg1 g2 hg2 hl1 hl2 hname
    rcases appendAt_file_cases _ _ _ _ hkv _ hg1 with ⟨kv0, h0, hke, hmem⟩ | ⟨hke, hgf⟩
    · rcases appendAt_file_cases _ _ _ _ hkv' _ hg2 with
        ⟨kv0', h0', hke', hmem'⟩ | ⟨hke', hgf'⟩
      · have := hoi kv0 h0 kv0' h0' g1 hmem g2 hmem' hl1 hl2 hname
        exact ⟨hke.trans (this.1.trans hke'.symm), this.2⟩
      · exfalso
        rw [hgf'] at hl2
        rw [hl] at hl2
        exact FileLink.noConfusion hl2
    · exfalso
      rw [hgf] at hl1
      rw [hl] at hl1
      exact FileLink.noConfusion hl1
  · intro kv hkv g1 hg1
    have hold := hms kv hkv g1 hg1
    refine ⟨hold.1, ?_⟩
    show g1 ∈ (lookupA (appendAt s.tasks_files tid g) kv.1).getD []
    rw [lookupA_appendAt]
    cases hlk : lookupA s.tasks_files kv.1 with
    | none =>
      rw [hlk] at hold
      exact absurd hold.2 (List.not_mem_nil g1)
    | some fs0 =>
      rw [hlk] at hold
      show g1 ∈ (if kv.1 = tid then fs0 ++ [g] else fs0)
      by_cases he : kv.1 = tid
      · rw [if_pos he]
        exact List.mem_append_left _ (by simpa using hold.2)
      · rw [if_neg he]
        simpa using hold.2
  · exact hmn

/-! ### The `_generate_files` specification -/

theorem lookupA_appendAt_ne {α : Type} (m : List (String × List α)) (k j : String)
    (v : α) (h : j ≠ k) : lookupA (appendAt m k v) j = lookupA m j := by
  rw [lookupA_appendAt]
  cases lookupA m j with
  | none => rfl
  | some fs => simp [h]

theorem genFilesGo_spec (ctx : Ctx) (tid : String) (whole : List (String × RVSpec))
    (L : FileLink) (extList : List String) :
    ∀ rec acc s res s' fscur, Inv s →
      lookupA s.tasks_files tid = some fscur →
      genFilesGo ctx tid whole L extList rec acc s = Except.ok (res, s') →
      ∃ new, res = acc ++ new ∧ Inv s' ∧ GenFilesPost L tid s s' fscur new ∧
        ((∀ ks ∈ rec, ks.1 ∈ extList) → new = [] ∧ s' = s) ∧
        (∀ ks ∈ rec, ks.1 ∈ extList ∨ ∃ f ∈ new, f.name.ext = ks.1) := by
  intro rec
  induction rec with
  | nil =>
    intro acc s res s' fscur hInv hk hok
    simp only [genFilesGo] at hok
    obtain ⟨h1, h2⟩ := Prod.mk.injEq _ _ _ _ ▸ Except.ok.inj hok
    refine ⟨[], by rw [← h1]; simp, h2 ▸ hInv,
      ⟨by rw [← h2]; simpa using hk, fun j _ => by rw [← h2],
       by rw [← h2], by simp, by simp, by rw [← h2], h2 ▸ filesOnly_refl s⟩,
      fun _ => ⟨rfl, h2.symm⟩, by simp⟩
  | cons ks rest ih =>
    obtain ⟨ext, spec⟩ := ks
    intro acc s res s' fscur hInv hk hok
    simp only [genFilesGo] at hok
    by_cases hmem : ext ∈ extList
    · rw [if_pos hmem] at hok
      obtain ⟨new, hres, hInv', hpost, hcov, hkeys⟩ :=
        ih acc s res s' fscur hInv hk hok
      refine ⟨new, hres, hInv', hpost, ?_, ?_⟩
      · intro h
        exact hcov (fun ks2 hks2 => h ks2 (List.mem_cons_of_mem _ hks2))
      · intro ks2 hks2
        rcases List.mem_cons.mp hks2 with he | hr
        · exact Or.inl (he ▸ hmem)
        · exact hkeys ks2 hr
    · rw [if_neg hmem] at hok
      cases hgf : _generate_file ctx s ext whole L with
      | error e =>
        rw [hgf] at hok
        exact Except.noConfusion hok
      | ok pr =>
        obtain ⟨file, s1⟩ := pr
        rw [hgf] at hok
        -- dissect the generated file
        unfold _generate_file at hgf
        cases hlw : lookupA whole ext with
        | none =>
          rw [hlw] at hgf
          exact Except.noConfusion hgf
        | some spec2 =>
          rw [hlw] at hgf
          obtain ⟨hfile, hs1⟩ := Prod.mk.injEq _ _ _ _ ▸ Except.ok.inj hgf
          -- the state after appending the fresh file
          have hInv2 : Inv { s with
              tasks_files := appendAt s.tasks_files tid file,
              tasks_files_names := appendAt s.tasks_files_names tid file.name,
              uuid_ctr := s.uuid_ctr + 1 } :=
            Inv_appendFresh s tid file fscur hInv hk (by rw [← hfile])
          have hk2 : lookupA (appendAt s.tasks_files tid file) tid =
              some (fscur ++ [file]) := by
            rw [lookupA_appendAt, hk]
            simp
          rw [← hs1] at hok
          obtain ⟨new', hres, hInv', hpost, _, hkeys⟩ :=
            ih (acc ++ [file]) _ res s' (fscur ++ [file]) hInv2 hk2 hok
          have hlinkf : file.link = L := by rw [← hfile]
          have htokf : file.name.token = s.uuid_ctr := by rw [← hfile]
          refine ⟨file :: new', by rw [hres]; simp, hInv', ?_, ?_, ?_⟩
          · refine ⟨?_, ?_, ?_, ?_, ?_, ?_, ?_⟩
            · rw [hpost.files_tid]
              simp
            · intro j hj
              rw [hpost.files_other j hj]
              exact lookupA_appendAt_ne _ _ _ _ hj
            · have := hpost.ctr_le
              simp only at this
              omega
            · intro f hf
              rcases List.mem_cons.mp hf with he | hr
              · subst he
                refine ⟨hlinkf, le_of_eq htokf.symm, ?_⟩
                have := hpost.ctr_le
                simp only at this
                omega
              · obtain ⟨hl1, hl2, hl3⟩ := hpost.new_spec f hr
                refine ⟨hl1, ?_, hl3⟩
                simp only at hl2
                omega
            · rw [List.map_cons, List.nodup_cons]
              refine ⟨?_, hpost.new_nodup⟩
              intro hmm
              rcases List.mem_map.mp hmm with ⟨g, hgm, hgeq⟩
              obtain ⟨_, hl2, _⟩ := hpost.new_spec g hgm
              simp only at hl2
              rw [hgeq, htokf] at hl2
              omega
            · rw [hpost.memo_eq]
            · refine filesOnly_trans ?_ hpost.fo
              exact ⟨rfl, rfl, rfl, rfl, rfl, rfl, rfl, rfl, rfl, rfl⟩
          · intro h
            exact absurd (h (ext, spec) (List.mem_cons_self _ _)) hmem
          · intro ks2 hks2
            rcases List.mem_cons.mp hks2 with he | hr
            · refine Or.inr ⟨file, List.mem_cons_self _ _, ?_⟩
              rw [← hfile, he]
            · rcases hkeys ks2 hr with h | ⟨f, hfm, hfe⟩
              · exact Or.inl h
              · exact Or.inr ⟨f, List.mem_cons_of_mem _ hfm, hfe⟩

theorem generate_files_spec (ctx : Ctx) (s : EngineState) (tid : String)
    (recipe : List (String × RVSpec)) (L : FileLink) (res : List File)
    (s' : EngineState) (hInv : Inv s)
    (hok : _generate_files ctx s tid recipe L = Except.ok (res, s')) :
    ∃ fs0 new, lookupA s.tasks_files tid = some fs0 ∧
      res = fs0.filter (fun f => f.link == L) ++ new ∧
      Inv s' ∧ GenFilesPost L tid s s' fs0 new ∧
      ((∀ ks ∈ recipe,
          ks.1 ∈ (fs0.filter (fun f => f.link == L)).filterMap extDesc) →
        new = [] ∧ s' = s) ∧
      (∀ ks ∈ recipe, goodExtB ks.1 = true →
        ks.1 ∈ ((fs0 ++ new).filter (fun f => f.link == L)).filterMap extDesc) := by
  unfold _generate_files at hok
  cases hk : lookupA s.tasks_files tid with
  | none =>
    rw [hk] at hok
    exact Except.noConfusion hok
  | some fs0 =>
    rw [hk] at hok
    obtain ⟨new, hres, hInv', hpost, hcov, hkeys⟩ :=
      genFilesGo_spec ctx tid recipe L
        ((fs0.filter (fun f => f.link == L)).filterMap extDesc)
        recipe (fs0.filter (fun f => f.link == L)) s res s' fs0 hInv hk hok
    refine ⟨fs0, new, rfl, hres, hInv', hpost, hcov, ?_⟩
    intro ks hks hgood
    rcases hkeys ks hks with h | ⟨f, hfm, hfe⟩
    · rcases List.mem_filterMap.mp h with ⟨g, hgm, hge⟩
      refine List.mem_filterMap.mpr ⟨g, ?_, hge⟩
      rw [List.filter_append]
      exact List.mem_append_left _ hgm
    · obtain ⟨hl1, _, _⟩ := hpost.new_spec f hfm
      refine List.mem_filterMap.mpr ⟨f, ?_, ?_⟩
      · rw [List.filter_append]
        refine List.mem_append_right _ (List.mem_filter.mpr ⟨hfm, by simp [hl1]⟩)
      · rw [← hfe]
        exact extDesc_goodExt f (hfe ▸ hgood)

/-! ### The input-append loop specification -/

theorem appendInputs_spec :
    ∀ (l : List File) (s : EngineState) (tid : String) (fs : List File),
      Inv s → lookupA s.tasks_files tid = some fs →
      (∀ f ∈ l, f.name.token < s.uuid_ctr) →
      Inv (appendInputs s tid l) ∧
      lookupA (appendInputs s tid l).tasks_files tid =
        some (fs ++ firstWins (fs.map File.name) l) ∧
      (∀ j, j ≠ tid → lookupA (appendInputs s tid l).tasks_files j =
        lookupA s.tasks_files j) ∧
      (appendInputs s tid l).uuid_ctr = s.uuid_ctr ∧
      (appendInputs s tid l).tasks_output_files = s.tasks_output_files ∧
      FilesOnly s (appendInputs s tid l) := by
  intro l
  induction l with
  | nil =>
    intro s tid fs hInv hk _
    refine ⟨hInv, ?_, fun j _ => rfl, rfl, rfl, filesOnly_refl s⟩
    show lookupA s.tasks_files tid = some (fs ++ [])
    simpa using hk
  | cons f rest ih =>
    intro s tid fs hInv hk htok
    have hnames : lookupA s.tasks_files_names tid = some (fs.map File.name) := by
      have hnf := hInv.1
      rw [hnf, lookupA_mirror, hk]
      rfl
    have hguard : (f.name ∈ (lookupA s.tasks_files_names tid).getD []) =
        (f.name ∈ fs.map File.name) := by
      rw [hnames]
      rfl
    by_cases hin : f.name ∈ fs.map File.name
    · have hstep : appendInputs s tid (f :: rest) = appendInputs s tid rest := by
        conv_lhs => rw [appendInputs]
        rw [if_pos (by rw [hguard]; exact hin)]
      have hfw : firstWins (fs.map File.name) (f :: rest) =
          firstWins (fs.map File.name) rest := by
        conv_lhs => rw [firstWins]
        rw [if_pos hin]
      rw [hstep, hfw]
      exact ih s tid fs hInv hk (fun g hg => htok g (List.mem_cons_of_mem _ hg))
    · have hstep : appendInputs s tid (f :: rest) =
          appendInputs { s with
            tasks_files := appendAt s.tasks_files tid
              { name := f.name, link := FileLink.input, size := f.size }
            tasks_files_names := appendAt s.tasks_files_names tid f.name }
            tid rest := by
        conv_lhs => rw [appendInputs]
        rw [if_neg (by rw [hguard]; exact hin)]
      have hInv2 : Inv { s with
          tasks_files := appendAt s.tasks_files tid
            { name := f.name, link := FileLink.input, size := f.size }
          tasks_files_names := appendAt s.tasks_files_names tid f.name } :=
        Inv_appendInput s tid _ fs hInv hk rfl
          (htok f (List.mem_cons_self _ _)) hin
      have hk2 : lookupA (appendAt s.tasks_files tid
          { name := f.name, link := FileLink.input, size := f.size }) tid =
          some (fs ++ [{ name := f.name, link := FileLink.input, size := f.size }]) := by
        rw [lookupA_appendAt, hk]
        simp
      have hfw : firstWins (fs.map File.name) (f :: rest) =
          { name := f.name, link := FileLink.input, size := f.size } ::
            firstWins (fs.map File.name ++ [f.name]) rest := by
        conv_lhs => rw [firstWins]
        rw [if_neg hin]
      obtain ⟨ha, hb, hc, hd, he, hf'⟩ := ih _ tid
        (fs ++ [{ name := f.name, link := FileLink.input, size := f.size }])
        hInv2 hk2 (fun g hg => htok g (List.mem_cons_of_mem _ hg))
      rw [hstep, hfw]
      refine ⟨ha, ?_, ?_, hd, he, ?_⟩
      · rw [hb]
        simp
      · intro j hj
        rw [hc j hj]
        exact lookupA_appendAt_ne _ _ _ _ hj
      · exact filesOnly_trans ⟨rfl, rfl, rfl, rfl, rfl, rfl, rfl, rfl, rfl, rfl⟩ hf'

theorem appendInputs_noop :
    ∀ (l : List File) (s : EngineState) (tid : String),
      (∀ f ∈ l, f.name ∈ (lookupA s.tasks_files_names tid).getD []) →
      appendInputs s tid l = s := by
  intro l
  induction l with
  | nil => intro s tid _; rfl
  | cons f rest ih =>
    intro s tid h
    unfold appendInputs
    rw [if_pos (h f (List.mem_cons_self _ _))]
    exact ih s tid (fun g hg => h g (List.mem_cons_of_mem _ hg))

theorem firstWins_complete :
    ∀ (l fs : List File),
      (∀ f ∈ l, ∀ g ∈ fs, g.name = f.name →
        g.link = FileLink.input ∧ g.size = f.size) →
      (∀ f ∈ l, ∀ f' ∈ l, f.name = f'.name → f.size = f'.size) →
      ∀ f ∈ l, ∃ g ∈ fs ++ firstWins (fs.map File.name) l,
        g.link = FileLink.input ∧ g.name = f.name ∧ g.size = f.size := by
  intro l
  induction l with
  | nil => intro fs _ _ f hf; exact absurd hf (List.not_mem_nil f)
  | cons h t ih =>
    intro fs hm hds f hf
    by_cases hin : h.name ∈ fs.map File.name
    · have hfw : firstWins (fs.map File.name) (h :: t) =
          firstWins (fs.map File.name) t := by
        conv_lhs => rw [firstWins]
        rw [if_pos hin]
      rw [hfw]
      rcases List.mem_cons.mp hf with he | hr
      · -- f is the head; it is matched by the existing file of the same name
        rcases List.mem_map.mp hin with ⟨g, hgm, hge⟩
        obtain ⟨hl, hsz⟩ := hm h (List.mem_cons_self _ _) g hgm hge
        exact ⟨g, List.mem_append_left _ hgm, hl, he ▸ hge, he ▸ hsz⟩
      · exact ih fs (fun a ha => hm a (List.mem_cons_of_mem _ ha))
          (fun a ha b hb => hds a (List.mem_cons_of_mem _ ha) b
            (List.mem_cons_of_mem _ hb)) f hr
    · have hfw : firstWins (fs.map File.name) (h :: t) =
          { name := h.name, link := FileLink.input, size := h.size } ::
            firstWins (fs.map File.name ++ [h.name]) t := by
        conv_lhs => rw [firstWins]
        rw [if_neg hin]
      rw [hfw]
      set g0 : File := { name := h.name, link := FileLink.input, size := h.size }
        with hg0
      have hrearr : fs ++ g0 :: firstWins (fs.map File.name ++ [h.name]) t =
          (fs ++ [g0]) ++ firstWins ((fs ++ [g0]).map File.name) t := by
        simp [hg0]
      rcases List.mem_cons.mp hf with he | hr
      · refine ⟨g0, ?_, rfl, by rw [he], by rw [he]⟩
        exact List.mem_append_right _ (List.mem_cons_self _ _)
      · rw [hrearr]
        refine ih (fs ++ [g0]) ?_ (fun a ha b hb => hds a
          (List.mem_cons_of_mem _ ha) b (List.mem_cons_of_mem _ hb)) f hr
        intro a ha g hg hge
        rcases List.mem_append.mp hg with hgo | hgn
        · exact hm a (List.mem_cons_of_mem _ ha) g hgo hge
        · have hgg : g = g0 := List.mem_singleton.mp hgn
          subst hgg
          refine ⟨rfl, ?_⟩
          show h.size = a.size
          exact hds h (List.mem_cons_self _ _) a (List.mem_cons_of_mem _ ha)
            (by rw [← hge])

/-! ### The parent-resolution loop specification -/

theorem genTaskFiles_hit (ctx : Ctx) (fuel : Nat) (t : Task) (s : EngineState)
    (O outs : List File) (s' : EngineState)
    (hm : lookupA s.tasks_output_files t.name = some O)
    (hok : genTaskFiles ctx fuel t s = Except.ok (outs, s')) :
    outs = O ∧ s' = s := by
  cases fuel with
  | zero => exact Except.noConfusion hok
  | succ fuel =>
    rw [genTaskFiles, hm] at hok
    obtain ⟨h1, h2⟩ := Prod.mk.injEq _ _ _ _ ▸ Except.ok.inj hok
    exact ⟨h1.symm, h2.symm⟩

theorem Inv_updMemo (s : EngineState) (p : String) (outs : List File)
    (hInv : Inv s)
    (houts : ∀ f ∈ outs, f.link = FileLink.output ∧
      f ∈ (lookupA s.tasks_files p).getD [])
    (hnd : (outs.map File.name).Nodup) :
    Inv { s with tasks_output_files := upd s.tasks_output_files p outs } := by
  obtain ⟨hnf, hkeys, hmap, htf, htm, hpn, hoi, hms, hmn⟩ := hInv
  refine ⟨hnf, hkeys, hmap, htf, ?_, hpn, hoi, ?_, ?_⟩
  · intro kv hkv f hf
    rcases mem_upd _ _ _ _ hkv with hold | hnew
    · exact htm kv hold f hf
    · rw [hnew] at hf
      obtain ⟨_, hmem⟩ := houts f hf
      cases hlk : lookupA s.tasks_files p with
      | none =>
        rw [hlk] at hmem
        exact absurd hmem (List.not_mem_nil f)
      | some fs =>
        rw [hlk] at hmem
        exact htf (p, fs) (mem_of_lookupA _ _ _ hlk) f (by simpa using hmem)
  · intro kv hkv f hf
    rcases mem_upd _ _ _ _ hkv with hold | hnew
    · exact hms kv hold f hf
    · rw [hnew] at hf
      obtain ⟨hl, hmem⟩ := houts f hf
      rw [hnew]
      exact ⟨hl, hmem⟩
  · intro kv hkv
    rcases mem_upd _ _ _ _ hkv with hold | hnew
    · exact hmn kv hold
    · rw [hnew]
      exact hnd

theorem ParentDepth_of_eq (s s' : EngineState) (D : String → Nat)
    (h : s'.tasks_parents = s.tasks_parents) (hp : ParentDepth s D) :
    ParentDepth s' D := by
  intro kv hkv
  rw [h] at hkv
  exact hp kv hkv

theorem resolveParents_spec (ctx : Ctx) (D : String → Nat) (fuel : Nat)
    (IH : ∀ t s outs s', Inv s → ParentDepth s D →
      genTaskFiles ctx fuel t s = Except.ok (outs, s') →
      GTFPost ctx D t s outs s') :
    ∀ (ps : List String) (B : Nat) (s : EngineState) (ins : List File)
      (s' : EngineState), Inv s → ParentDepth s D → (∀ p ∈ ps, D p < B) →
      resolveParentsF (genTaskFiles ctx fuel) ps s = Except.ok (ins, s') →
      Inv s' ∧ s.uuid_ctr ≤ s'.uuid_ctr ∧ FilesOnly s s' ∧
      (∀ k fs, lookupA s.tasks_files k = some fs →
        ∃ r, lookupA s'.tasks_files k = some (fs ++ r) ∧
          (r ≠ [] → lookupA s.tasks_output_files k = none ∧
            lookupA s'.tasks_output_files k ≠ none)) ∧
      (∀ k, lookupA s.tasks_files k = none → lookupA s'.tasks_files k = none) ∧
      (∀ k O, lookupA s.tasks_output_files k = some O →
        lookupA s'.tasks_output_files k = some O) ∧
      (∀ k, lookupA s.tasks_output_files k = none →
        lookupA s'.tasks_output_files k ≠ none → D k < B) ∧
      (∀ p ∈ ps, ∃ O, lookupA s'.tasks_output_files p = some O ∧
        ∀ f ∈ O, f ∈ ins) ∧
      (∀ f ∈ ins, ∃ p, p ∈ ps ∧ ∃ O,
        lookupA s'.tasks_output_files p = some O ∧ f ∈ O) ∧
      (∀ p ∈ ps, ∃ pt, lookupA s.tasks_map p = some pt) ∧
      ((∀ p ∈ ps, lookupA s.tasks_output_files p ≠ none) → s' = s) := by
  intro ps
  induction ps with
  | nil =>
    intro B s ins s' hInv _ _ hok
    simp only [resolveParentsF] at hok
    obtain ⟨h1, h2⟩ := Prod.mk.injEq _ _ _ _ ▸ Except.ok.inj hok
    subst h2
    refine ⟨hInv, le_rfl, filesOnly_refl s, ?_, fun k h => h,
      fun k O h => h, fun k h1 h2 => absurd h1 h2, by simp, ?_, by simp,
      fun _ => rfl⟩
    · intro k fs hk
      exact ⟨[], by simpa using hk, fun h => absurd rfl h⟩
    · intro f hf
      rw [← h1] at hf
      exact absurd hf (List.not_mem_nil f)
  | cons p rest ih =>
    intro B s ins s' hInv hPD hB hok
    simp only [resolveParentsF] at hok
    split at hok
    · exact Except.noConfusion hok
    · rename_i pt hm
      split at hok
      · exact Except.noConfusion hok
      · rename_i pr1 outs s1 hg
        have post1 := IH pt s outs s1 hInv hPD hg
        have hptname : pt.name = p :=
          hInv.2.2.1 (p, pt) (mem_of_lookupA _ _ _ hm)
        -- the state after recording the parent's outputs in the memo
        set s2 : EngineState :=
          { s1 with tasks_output_files := upd s1.tasks_output_files p outs }
          with hs2
        have hfiles2 : s2.tasks_files = s1.tasks_files := rfl
        have hInv2 : Inv s2 := by
          refine Inv_updMemo s1 p outs post1.inv ?_ post1.outs_nodup
          intro f hf
          have := post1.outs_mem f hf
          rw [hptname] at this
          exact this
        have hPD1 : ParentDepth s1 D :=
          ParentDepth_of_eq s s1 D post1.evol.tpar hPD
        have hPD2 : ParentDepth s2 D := hPD1
        have hmemo2p : lookupA s2.tasks_output_files p = some outs :=
          lookupA_upd_self _ _ _
        have hmemo2ne : ∀ j, j ≠ p →
            lookupA s2.tasks_output_files j = lookupA s1.tasks_output_files j :=
          fun j hj => lookupA_upd_ne _ _ _ _ hj
        split at hok
        · exact Except.noConfusion hok
        · rename_i pr2 ins' s3 hr
          obtain ⟨hins, hs3⟩ := Prod.mk.injEq _ _ _ _ ▸ Except.ok.inj hok
          subst hs3
          obtain ⟨ihInv, ihctr, ihfo, ihgrow, ihknone, ihmemoS, ihmemoNew,
            ihpar, ihchar, ihpmap, ihall⟩ :=
            ih B s2 ins' s3 hInv2 hPD2
              (fun q hq => hB q (List.mem_cons_of_mem _ hq)) hr
          have hfo12 : FilesOnly s1 s2 :=
            ⟨rfl, rfl, rfl, rfl, rfl, rfl, rfl, rfl, rfl, rfl⟩
          have hmemoS12 : ∀ k O, lookupA s.tasks_output_files k = some O →
              lookupA s2.tasks_output_files k = some O := by
            intro k O hk
            by_cases hkp : k = p
            · subst hkp
              have hhit := genTaskFiles_hit ctx fuel pt s O outs s1
                (by rw [hptname]; exact hk) hg
              rw [hmemo2p, hhit.1]
            · rw [hmemo2ne k hkp]
              exact post1.evol.memoS k O hk
          have hmemo_s2_of_s : ∀ k, lookupA s2.tasks_output_files k = none →
              lookupA s.tasks_output_files k = none := by
            intro k hk2
            cases hks : lookupA s.tasks_output_files k with
            | none => rfl
            | some O =>
              rw [hmemoS12 k O hks] at hk2
              exact Option.noConfusion hk2
          refine ⟨ihInv, ?_, ?_, ?_, ?_, ?_, ?_, ?_, ?_, ?_, ?_⟩
          · calc s.uuid_ctr ≤ s1.uuid_ctr := post1.evol.ctr_le
              _ = s2.uuid_ctr := rfl
              _ ≤ s3.uuid_ctr := ihctr
          · exact filesOnly_trans (filesOnly_trans post1.fo hfo12) ihfo
          · -- file-list growth
            intro k fs hk
            obtain ⟨r1, hr1, hcl1⟩ := post1.evol.grow k fs hk
            have hk2 : lookupA s2.tasks_files k = some (fs ++ r1) := by
              rw [hfiles2]; exact hr1
            obtain ⟨r2, hr2, hcl2⟩ := ihgrow k (fs ++ r1) hk2
            refine ⟨r1 ++ r2, by rw [← List.append_assoc]; exact hr2, ?_⟩
            intro hne
            by_cases hr1e : r1 = []
            · subst hr1e
              have hr2e : r2 ≠ [] := by simpa using hne
              obtain ⟨hn2, hs3n⟩ := hcl2 hr2e
              exact ⟨hmemo_s2_of_s k hn2, hs3n⟩
            · by_cases hkp : k = pt.name
              · subst hkp
                -- the parent itself; its memo entry was created by this iteration
                have hmiss : lookupA s.tasks_output_files pt.name = none := by
                  cases hmo : lookupA s.tasks_output_files pt.name with
                  | none => rfl
                  | some O =>
                    have hhit := genTaskFiles_hit ctx fuel pt s O outs s1 hmo hg
                    rw [hhit.2] at hr1
                    rw [hk] at hr1
                    have heqf : fs = fs ++ r1 := Option.some.inj hr1
                    have hlen : r1.length = 0 := by
                      have h2 := congrArg List.length heqf
                      rw [List.length_append] at h2
                      omega
                    exact (hr1e (List.length_eq_zero.mp hlen)).elim
                refine ⟨hmiss, ?_⟩
                have h2 : lookupA s2.tasks_output_files pt.name = some outs := by
                  rw [hptname]; exact hmemo2p
                have h3 := ihmemoS pt.name outs h2
                rw [h3]
                exact Option.noConfusion
              · obtain ⟨hn1, hs1n⟩ := hcl1 hkp hr1e
                refine ⟨hn1, ?_⟩
                obtain ⟨O, hO⟩ := Option.ne_none_iff_exists'.mp hs1n
                have h2 : lookupA s2.tasks_output_files k = some O := by
                  by_cases hkp2 : k = p
                  · exact absurd (hkp2.trans hptname.symm) hkp
                  · rw [hmemo2ne k hkp2]; exact hO
                rw [ihmemoS k O h2]
                exact Option.noConfusion
          · intro k hk
            have h1 := post1.evol.knone k hk
            have h2 : lookupA s2.tasks_files k = none := by
              rw [hfiles2]; exact h1
            exact ihknone k h2
          · intro k O hk
            exact ihmemoS k O (hmemoS12 k O hk)
          · -- new memo keys are bounded by B
            intro k hk1 hk3
            by_cases hk2 : lookupA s2.tasks_output_files k = none
            · exact ihmemoNew k hk2 hk3
            · by_cases hkp : k = p
              · rw [hkp]
                exact hB p (List.mem_cons_self _ _)
              · rw [hmemo2ne k hkp] at hk2
                have := post1.evol.memoNew k hk1 hk2
                calc D k < D pt.name := this
                  _ = D p := by rw [hptname]
                  _ < B := hB p (List.mem_cons_self _ _)
          · -- every listed parent is memoized with its outputs among the inputs
            intro q hq
            rcases List.mem_cons.mp hq with he | hrst
            · subst he
              refine ⟨outs, ihmemoS q outs hmemo2p, ?_⟩
              intro f hf
              rw [← hins]
              exact List.mem_append_left _ hf
            · obtain ⟨O, hO, hOin⟩ := ihpar q hrst
              refine ⟨O, hO, fun f hf => ?_⟩
              rw [← hins]
              exact List.mem_append_right _ (hOin f hf)
          · -- every collected input is some memoized parent output
            intro f hf
            rw [← hins] at hf
            rcases List.mem_append.mp hf with hl | hr2
            · exact ⟨p, List.mem_cons_self _ _, outs,
                ihmemoS p outs hmemo2p, hl⟩
            · obtain ⟨q, hq, O, hO, hfO⟩ := ihchar f hr2
              exact ⟨q, List.mem_cons_of_mem _ hq, O, hO, hfO⟩
          · -- every listed parent is registered in the task map
            intro q hq
            rcases List.mem_cons.mp hq with he | hrst
            · exact he ▸ ⟨pt, hm⟩
            · obtain ⟨qt, hqt⟩ := ihpmap q hrst
              refine ⟨qt, ?_⟩
              have hmeq : s.tasks_map = s2.tasks_map := by
                show s.tasks_map = s1.tasks_map
                exact post1.fo.2.2.2.2.2.2.2.1.symm
              rw [hmeq]
              exact hqt
          · -- if every parent is already memoized the state is unchanged
            intro hall2
            have hmp : lookupA s.tasks_output_files p ≠ none :=
              hall2 p (List.mem_cons_self _ _)
            obtain ⟨O, hO⟩ := Option.ne_none_iff_exists'.mp hmp
            have hhit := genTaskFiles_hit ctx fuel pt s O outs s1
              (by rw [hptname]; exact hO) hg
            have hs2eq : s2 = s := by
              rw [hs2, hhit.2, hhit.1]
              rw [upd_of_lookupA_self s.tasks_output_files p O hO]
            have := ihall (by
              intro q hq
              rw [hs2eq]
              exact hall2 q (List.mem_cons_of_mem _ hq))
            rw [this, hs2eq]

/-! ### The `_generate_task_files` specification -/

theorem firstWins_link :
    ∀ (l : List File) (seen : List FName) (g : File),
      g ∈ firstWins seen l → g.link = FileLink.input := by
  intro l
  induction l with
  | nil => intro seen g hg; exact absurd hg (List.not_mem_nil g)
  | cons f rest ih =>
    intro seen g hg
    by_cases hin : f.name ∈ seen
    · rw [show firstWins seen (f :: rest) = firstWins seen rest by
        conv_lhs => rw [firstWins]
        rw [if_pos hin]] at hg
      exact ih seen g hg
    · rw [show firstWins seen (f :: rest) =
          { name := f.name, link := FileLink.input, size := f.size } ::
            firstWins (seen ++ [f.name]) rest by
        conv_lhs => rw [firstWins]
        rw [if_neg hin]] at hg
      rcases List.mem_cons.mp hg with he | hr
      · rw [he]
      · exact ih _ g hr

theorem genTaskFiles_post (ctx : Ctx) (D : String → Nat) :
    ∀ fuel t s outs s', Inv s → ParentDepth s D →
      genTaskFiles ctx fuel t s = Except.ok (outs, s') →
      GTFPost ctx D t s outs s' := by
  intro fuel
  induction fuel with
  | zero =>
    intro t s outs s' _ _ hok
    exact Except.noConfusion hok
  | succ fuel ihf =>
    intro t s outs s' hInv hPD hok
    rw [genTaskFiles] at hok
    split at hok
    · -- memo hit: the cached list is returned, the state is unchanged
      rename_i O hmemo
      obtain ⟨h1, h2⟩ := Prod.mk.injEq _ _ _ _ ▸ Except.ok.inj hok
      subst h2
      subst h1
      have hmem := mem_of_lookupA _ _ _ hmemo
      refine ⟨hInv, ?_, ?_, ?_, filesOnly_refl s, ?_, ?_, ?_, ?_, ?_, ?_, ?_⟩
      · exact ⟨le_rfl, rfl, rfl, rfl, rfl, rfl, rfl,
          fun k fs hk => ⟨[], by simpa using hk, fun _ h => absurd rfl h⟩,
          fun k h => h, fun k O h => h,
          fun k h1 h2 => absurd h1 h2⟩
      · intro f hf
        exact hInv.2.2.2.2.2.2.2.1 (t.name, O) hmem f hf
      · exact hInv.2.2.2.2.2.2.2.2 (t.name, O) hmem
      · intro hnone
        exact Option.noConfusion (hnone ▸ hmemo)
      · intro hnone
        exact Option.noConfusion (hnone ▸ hmemo)
      · intro hnone
        exact (Option.noConfusion (hnone ▸ hmemo) : False).elim
      · intro hnone
        exact (Option.noConfusion (hnone ▸ hmemo) : False).elim
      · intro hnone
        exact (Option.noConfusion (hnone ▸ hmemo) : False).elim
      · intro hnone
        exact (Option.noConfusion (hnone ▸ hmemo) : False).elim
      · intro hnone
        exact (Option.noConfusion (hnone ▸ hmemo) : False).elim
    · -- memo miss
      rename_i hmemo
      split at hok
      · exact Except.noConfusion hok
      · rename_i task_recipe hcat
        split at hok
        · exact Except.noConfusion hok
        · rename_i pr1 output_files_list s1 hfo
          split at hok
          · exact Except.noConfusion hok
          · rename_i pr2 input_files s2 hrp
            dsimp only at hok
            split at hok
            · exact Except.noConfusion hok
            · rename_i pr3 dummy s4 hfi
              obtain ⟨h1, h2⟩ := Prod.mk.injEq _ _ _ _ ▸ Except.ok.inj hok
              subst h2
              subst h1
              -- phase 1: output generation
              obtain ⟨fs0, new1, hk0, hres1, hInv1, hpost1, _, hkeys1⟩ :=
                generate_files_spec ctx s t.name task_recipe.output
                  FileLink.output output_files_list s1 hInv hfo
              have hpars_eq : s1.tasks_parents = s.tasks_parents :=
                hpost1.fo.2.2.2.2.2.2.2.2.2
              have hPD1 : ParentDepth s1 D :=
                ParentDepth_of_eq s s1 D hpars_eq hPD
              have hparB : ∀ p ∈ (lookupA s1.tasks_parents t.name).getD [],
                  D p < D t.name := by
                intro p hp
                rw [hpars_eq] at hp
                cases hpp : lookupA s.tasks_parents t.name with
                | none =>
                  rw [hpp] at hp
                  exact absurd hp (List.not_mem_nil p)
                | some ps0 =>
                  rw [hpp] at hp
                  exact hPD (t.name, ps0) (mem_of_lookupA _ _ _ hpp) p hp
              -- phase 2: parent resolution
              obtain ⟨LInv, Lctr, Lfo, Lgrow, Lknone, LmemoS, LmemoNew,
                Lpar, Lchar, Lpmap, _⟩ :=
                resolveParents_spec ctx D fuel ihf
                  ((lookupA s1.tasks_parents t.name).getD []) (D t.name)
                  s1 input_files s2 hInv1 hPD1 hparB hrp
              have hmemo1 : lookupA s1.tasks_output_files t.name = none := by
                rw [hpost1.memo_eq]
                exact hmemo
              have hmemo2 : lookupA s2.tasks_output_files t.name = none := by
                cases hc : lookupA s2.tasks_output_files t.name with
                | none => rfl
                | some O =>
                  have := LmemoNew t.name hmemo1 (by rw [hc]; exact Option.noConfusion)
                  omega
              have hgrow2 := Lgrow t.name (fs0 ++ new1) hpost1.files_tid
              obtain ⟨rL, hrL, hclL⟩ := hgrow2
              have hrLnil : rL = [] := by
                by_cases hc : rL = []
                · exact hc
                · obtain ⟨_, hne⟩ := hclL hc
                  exact absurd hmemo2 hne
              subst hrLnil
              rw [List.append_nil] at hrL
              -- phase 3: the input-append loop
              have htoks : ∀ f ∈ input_files, f.name.token < s2.uuid_ctr := by
                intro f hf
                obtain ⟨p, _, O, hO, hfO⟩ := Lchar f hf
                exact LInv.2.2.2.2.1 (p, O) (mem_of_lookupA _ _ _ hO) f hfO
              obtain ⟨InvA, hks3, hother3, huuid3, hmemo3, hfoA⟩ :=
                appendInputs_spec input_files s2 t.name (fs0 ++ new1)
                  LInv hrL htoks
              -- phase 4: input generation
              obtain ⟨fs3, new2, hk3, hres2, hInv4, hpost2, _, hkeys2⟩ :=
                generate_files_spec ctx (appendInputs s2 t.name input_files)
                  t.name task_recipe.input FileLink.input dummy s4 InvA hfi
              have hfs3 : fs3 = (fs0 ++ new1) ++
                  firstWins ((fs0 ++ new1).map File.name) input_files :=
                Option.some.inj (hk3.symm.trans hks3)
              have hmemo4 : lookupA s4.tasks_output_files t.name = none := by
                rw [hpost2.memo_eq, hmemo3]
                exact hmemo2
              have hmemoS24 : ∀ k O, lookupA s2.tasks_output_files k = some O →
                  lookupA s4.tasks_output_files k = some O := by
                intro k O h
                rw [hpost2.memo_eq, hmemo3]
                exact h
              -- final file list of t
              have hfinal : lookupA s4.tasks_files t.name = some (fs3 ++ new2) :=
                hpost2.files_tid
              have houtsub : ∀ f ∈ output_files_list, f.link = FileLink.output ∧
                  f ∈ fs0 ++ new1 := by
                intro f hf
                rw [hres1] at hf
                rcases List.mem_append.mp hf with hl | hr
                · have hmf := List.mem_filter.mp hl
                  refine ⟨by simpa using hmf.2, List.mem_append_left _ hmf.1⟩
                · exact ⟨(hpost1.new_spec f hr).1, List.mem_append_right _ hr⟩
              have hfoT : FilesOnly s s4 :=
                filesOnly_trans (filesOnly_trans (filesOnly_trans hpost1.fo Lfo)
                  hfoA) hpost2.fo
              refine ⟨hInv4, ?_, ?_, ?_, hfoT, ?_, fun _ => hmemo4, ?_, ?_,
                ?_, ?_, ?_⟩
              · -- Evol
                refine ⟨?_, hfoT.2.2.2.1, hfoT.2.2.2.2.1, hfoT.2.2.2.2.2.1,
                  hfoT.2.2.2.2.2.2.1, hfoT.2.2.2.2.2.2.2.1,
                  hfoT.2.2.2.2.2.2.2.2.2, ?_, ?_, ?_, ?_⟩
                · calc s.uuid_ctr ≤ s1.uuid_ctr := hpost1.ctr_le
                    _ ≤ s2.uuid_ctr := Lctr
                    _ = _ := huuid3.symm
                    _ ≤ s4.uuid_ctr := hpost2.ctr_le
                · -- grow
                  intro k fs hk
                  by_cases hkt : k = t.name
                  · subst hkt
                    have hfs : fs = fs0 := Option.some.inj (hk.symm.trans hk0)
                    rw [hfs]
                    refine ⟨new1 ++ firstWins ((fs0 ++ new1).map File.name)
                      input_files ++ new2, ?_, ?_⟩
                    · rw [hfinal, hfs3]
                      simp [List.append_assoc]
                    · intro hkt2
                      exact absurd rfl hkt2
                  · obtain ⟨rM, hrM, hclM⟩ := Lgrow k fs
                      (by rw [hpost1.files_other k hkt]; exact hk)
                    refine ⟨rM, ?_, ?_⟩
                    · rw [hpost2.files_other k hkt, hother3 k hkt]
                      exact hrM
                    · intro _ hne
                      obtain ⟨hn1, hn2⟩ := hclM hne
                      constructor
                      · rw [← hpost1.memo_eq]
                        exact hn1
                      · rw [hpost2.memo_eq, hmemo3]
                        exact hn2
                · -- knone
                  intro k hk
                  by_cases hkt : k = t.name
                  · rw [hkt, hk0] at hk
                    exact Option.noConfusion hk
                  · rw [hpost2.files_other k hkt, hother3 k hkt]
                    refine Lknone k ?_
                    rw [hpost1.files_other k hkt]
                    exact hk
                · -- memoS
                  intro k O hk
                  refine hmemoS24 k O (LmemoS k O ?_)
                  rw [hpost1.memo_eq]
                  exact hk
                · -- memoNew
                  intro k hk1 hk4
                  have hk2 : lookupA s2.tasks_output_files k ≠ none := by
                    intro hc
                    rw [hpost2.memo_eq, hmemo3, hc] at hk4
                    exact hk4 rfl
                  exact LmemoNew k (by rw [hpost1.memo_eq]; exact hk1) hk2
              · -- outs_mem
                intro f hf
                obtain ⟨hl, hmem⟩ := houtsub f hf
                refine ⟨hl, ?_⟩
                rw [hfinal]
                show f ∈ fs3 ++ new2
                refine List.mem_append_left _ ?_
                rw [hfs3]
                exact List.mem_append_left _ hmem
              · -- outs_nodup
                rw [hres1, List.map_append, List.nodup_append]
                refine ⟨?_, hpost1.new_nodup, ?_⟩
                · have hnd0 : (fs0.map File.name).Nodup :=
                    hInv.2.2.2.2.2.1 (t.name, fs0) (mem_of_lookupA _ _ _ hk0)
                  exact hnd0.sublist (List.Sublist.map _ (List.filter_sublist _))
                · intro nm hnm1 hnm2
                  rcases List.mem_map.mp hnm1 with ⟨g, hgm, hge⟩
                  rcases List.mem_map.mp hnm2 with ⟨g', hgm', hge'⟩
                  have ht1 : g.name.token < s.uuid_ctr :=
                    hInv.2.2.2.1 (t.name, fs0) (mem_of_lookupA _ _ _ hk0) g
                      (List.mem_of_mem_filter hgm)
                  have ht2 : s.uuid_ctr ≤ g'.name.token :=
                    (hpost1.new_spec g' hgm').2.1
                  rw [hge, ← hge'] at ht1
                  omega
              · -- miss_filter
                intro _
                refine ⟨fs3 ++ new2, hfinal, ?_⟩
                rw [hfs3, hres1]
                rw [List.filter_append, List.filter_append, List.filter_append]
                have he1 : new1.filter (fun f => f.link == FileLink.output) = new1 :=
                  List.filter_eq_self.mpr (fun f hf => by
                    simp [(hpost1.new_spec f hf).1])
                have he2 : (firstWins ((fs0 ++ new1).map File.name)
                    input_files).filter (fun f => f.link == FileLink.output) = [] := by
                  rw [List.filter_eq_nil]
                  intro f hf
                  simp [firstWins_link input_files _ f hf]
                have he3 : new2.filter (fun f => f.link == FileLink.output) = [] := by
                  rw [List.filter_eq_nil]
                  intro f hf
                  simp [(hpost2.new_spec f hf).1]
                rw [he1, he2, he3]
                simp
              · -- miss_parents
                intro _ p hp
                have hp1 : p ∈ (lookupA s1.tasks_parents t.name).getD [] := by
                  rw [hpars_eq]
                  exact hp
                obtain ⟨O, hO, _⟩ := Lpar p hp1
                exact ⟨O, hmemoS24 p O hO⟩
              · -- miss_inputs
                intro _ hall p hp
                have hp1 : p ∈ (lookupA s1.tasks_parents t.name).getD [] := by
                  rw [hpars_eq]
                  exact hp
                obtain ⟨O, hO, hOin⟩ := Lpar p hp1
                refine ⟨O, hmemoS24 p O hO, ?_⟩
                have hall0 : ∀ g ∈ fs0, g.link = FileLink.output := by
                  intro g hg
                  have := hall g (by rw [hk0]; exact hg)
                  exact this
                -- no collision between candidate inputs and t's current files
                have hm : ∀ f ∈ input_files, ∀ g ∈ fs0 ++ new1,
                    g.name = f.name →
                    g.link = FileLink.input ∧ g.size = f.size := by
                  intro f hf g hg hge
                  exfalso
                  obtain ⟨q, _, Oq, hOq, hfOq⟩ := Lchar f hf
                  have hsubq := LInv.2.2.2.2.2.2.2.1 (q, Oq)
                    (mem_of_lookupA _ _ _ hOq) f hfOq
                  obtain ⟨hfl, hfmem⟩ := hsubq
                  cases hlq : lookupA s2.tasks_files q with
                  | none =>
                    rw [hlq] at hfmem
                    exact absurd hfmem (List.not_mem_nil f)
                  | some fsq =>
                    rw [hlq] at hfmem
                    have hgl : g.link = FileLink.output := by
                      rcases List.mem_append.mp hg with hl | hr
                      · exact hall0 g hl
                      · exact (hpost1.new_spec g hr).1
                    have := LInv.2.2.2.2.2.2.1 (t.name, fs0 ++ new1)
                      (mem_of_lookupA _ _ _ hrL) (q, fsq)
                      (mem_of_lookupA _ _ _ hlq) g hg f
                      (by simpa using hfmem) hgl hfl hge
                    have htq : t.name = q := this.1
                    rw [← htq] at hOq
                    rw [hmemo2] at hOq
                    exact Option.noConfusion hOq
                -- names determine sizes among the candidate inputs
                have hds : ∀ f ∈ input_files, ∀ f' ∈ input_files,
                    f.name = f'.name → f.size = f'.size := by
                  intro f hf f' hf' hge
                  obtain ⟨q, _, Oq, hOq, hfOq⟩ := Lchar f hf
                  obtain ⟨q', _, Oq', hOq', hfOq'⟩ := Lchar f' hf'
                  obtain ⟨hfl, hfmem⟩ := LInv.2.2.2.2.2.2.2.1 (q, Oq)
                    (mem_of_lookupA _ _ _ hOq) f hfOq
                  obtain ⟨hfl', hfmem'⟩ := LInv.2.2.2.2.2.2.2.1 (q', Oq')
                    (mem_of_lookupA _ _ _ hOq') f' hfOq'
                  cases hlq : lookupA s2.tasks_files q with
                  | none =>
                    rw [hlq] at hfmem
                    exact absurd hfmem (List.not_mem_nil f)
                  | some fsq =>
                    cases hlq' : lookupA s2.tasks_files q' with
                    | none =>
                      rw [hlq'] at hfmem'
                      exact absurd hfmem' (List.not_mem_nil f')
                    | some fsq' =>
                      rw [hlq] at hfmem
                      rw [hlq'] at hfmem'
                      have := LInv.2.2.2.2.2.2.1 (q, fsq)
                        (mem_of_lookupA _ _ _ hlq) (q', fsq')
                        (mem_of_lookupA _ _ _ hlq') f
                        (by simpa using hfmem) f'
                        (by simpa using hfmem') hfl hfl' hge
                      rw [this.2]
                intro f hf
                have hfin : f ∈ input_files := hOin f hf
                obtain ⟨g, hgmem, hgl, hgn, hgs⟩ :=
                  firstWins_complete input_files (fs0 ++ new1) hm hds f hfin
                refine ⟨g, ?_, hgl, hgn, hgs⟩
                rw [hfinal]
                show g ∈ fs3 ++ new2
                refine List.mem_append_left _ ?_
                rw [hfs3]
                exact hgmem
              · -- miss_pmap
                intro _ p hp
                have hp1 : p ∈ (lookupA s1.tasks_parents t.name).getD [] := by
                  rw [hpars_eq]
                  exact hp
                obtain ⟨pt, hpt⟩ := Lpmap p hp1
                refine ⟨pt, ?_⟩
                rw [show s.tasks_map = s1.tasks_map from
                  hpost1.fo.2.2.2.2.2.2.2.1.symm]
                exact hpt
              · -- miss_cover_out
                intro _ rec hrec ks hks hgood
                have hrec2 : rec = task_recipe := by
                  rw [hcat] at hrec
                  exact (Option.some.inj hrec).symm
                subst hrec2
                have hcov := hkeys1 ks hks hgood
                rcases List.mem_filterMap.mp hcov with ⟨g, hg, hge⟩
                have hgf := List.mem_filter.mp hg
                refine List.mem_filterMap.mpr ⟨g, ?_, hge⟩
                refine List.mem_filter.mpr ⟨?_, hgf.2⟩
                rw [hfinal]
                show g ∈ fs3 ++ new2
                refine List.mem_append_left _ ?_
                rw [hfs3]
                exact List.mem_append_left _ hgf.1
              · -- miss_cover_in
                intro _ rec hrec ks hks hgood
                have hrec2 : rec = task_recipe := by
                  rw [hcat] at hrec
                  exact (Option.some.inj hrec).symm
                subst hrec2
                have hcov := hkeys2 ks hks hgood
                rcases List.mem_filterMap.mp hcov with ⟨g, hg, hge⟩
                have hgf := List.mem_filter.mp hg
                refine List.mem_filterMap.mpr ⟨g, ?_, hge⟩
                refine List.mem_filter.mpr ⟨?_, hgf.2⟩
                rw [hfinal]
                show g ∈ fs3 ++ new2
                exact hgf.1

/-! ### Forward-execution lemmas -/

theorem genFilesGo_all_skip (ctx : Ctx) (tid : String)
    (whole : List (String × RVSpec)) (L : FileLink) (extList : List String) :
    ∀ rec acc s, (∀ ks ∈ rec, ks.1 ∈ extList) →
      genFilesGo ctx tid whole L extList rec acc s = Except.ok (acc, s) := by
  intro rec
  induction rec with
  | nil => intro acc s _; rfl
  | cons ks rest ih =>
    obtain ⟨ext, spec⟩ := ks
    intro acc s h
    simp only [genFilesGo]
    rw [if_pos (h (ext, spec) (List.mem_cons_self _ _))]
    exact ih acc s (fun k hk => h k (List.mem_cons_of_mem _ hk))

theorem generate_files_covered (ctx : Ctx) (s : EngineState) (tid : String)
    (recipe : List (String × RVSpec)) (L : FileLink) (fs : List File)
    (hk : lookupA s.tasks_files tid = some fs)
    (hcov : ∀ ks ∈ recipe,
      ks.1 ∈ (fs.filter (fun f => f.link == L)).filterMap extDesc) :
    _generate_files ctx s tid recipe L =
      Except.ok (fs.filter (fun f => f.link == L), s) := by
  unfold _generate_files
  rw [hk]
  exact genFilesGo_all_skip ctx tid recipe L _ recipe _ s hcov

theorem genFilesGo_ok (ctx : Ctx) (tid : String)
    (whole : List (String × RVSpec)) (L : FileLink) (extList : List String) :
    ∀ rec acc s, (∀ ks ∈ rec, ks.1 ∈ whole.map Prod.fst) →
      ∃ r, genFilesGo ctx tid whole L extList rec acc s = Except.ok r := by
  intro rec
  induction rec with
  | nil => intro acc s _; exact ⟨(acc, s), rfl⟩
  | cons ks rest ih =>
    obtain ⟨ext, spec⟩ := ks
    intro acc s h
    simp only [genFilesGo]
    by_cases hmem : ext ∈ extList
    · rw [if_pos hmem]
      exact ih acc s (fun k hk => h k (List.mem_cons_of_mem _ hk))
    · rw [if_neg hmem]
      cases hlw : lookupA whole ext with
      | none =>
        exact absurd ((lookupA_eq_none_iff whole ext).mp hlw)
          (fun hni => hni (h (ext, spec) (List.mem_cons_self _ _)))
      | some spec2 =>
        unfold _generate_file
        rw [hlw]
        exact ih _ _ (fun k hk => h k (List.mem_cons_of_mem _ hk))

theorem generate_files_ok (ctx : Ctx) (s : EngineState) (tid : String)
    (recipe : List (String × RVSpec)) (L : FileLink) (fs : List File)
    (hk : lookupA s.tasks_files tid = some fs) :
    ∃ r, _generate_files ctx s tid recipe L = Except.ok r := by
  unfold _generate_files
  rw [hk]
  exact genFilesGo_ok ctx tid recipe L _ recipe _ s
    (fun ks hks => List.mem_map_of_mem Prod.fst hks)

theorem resolveParents_allhit (ctx : Ctx) (fuel : Nat) :
    ∀ (ps : List String) (s : EngineState),
      (∀ p ∈ ps, ∃ pt, lookupA s.tasks_map p = some pt ∧ pt.name = p) →
      (∀ p ∈ ps, ∃ O, lookupA s.tasks_output_files p = some O) →
      ∃ ins, resolveParentsF (genTaskFiles ctx (fuel + 1)) ps s =
        Except.ok (ins, s) ∧
        ∀ f ∈ ins, ∃ p, p ∈ ps ∧ ∃ O,
          lookupA s.tasks_output_files p = some O ∧ f ∈ O := by
  intro ps
  induction ps with
  | nil =>
    intro s _ _
    exact ⟨[], rfl, by simp⟩
  | cons p rest ih =>
    intro s hmap hmemo
    obtain ⟨pt, hpt, hptn⟩ := hmap p (List.mem_cons_self _ _)
    obtain ⟨O, hO⟩ := hmemo p (List.mem_cons_self _ _)
    have hgen : genTaskFiles ctx (fuel + 1) pt s = Except.ok (O, s) := by
      rw [genTaskFiles]
      rw [show lookupA s.tasks_output_files pt.name = some O by
        rw [hptn]; exact hO]
    have hseq : { s with tasks_output_files := upd s.tasks_output_files p O } = s := by
      rw [upd_of_lookupA_self s.tasks_output_files p O hO]
    obtain ⟨ins', hres', hchar'⟩ := ih s
      (fun q hq => hmap q (List.mem_cons_of_mem _ hq))
      (fun q hq => hmemo q (List.mem_cons_of_mem _ hq))
    refine ⟨O ++ ins', ?_, ?_⟩
    · simp only [resolveParentsF, hpt, hgen, hseq, hres']
    · intro f hf
      rcases List.mem_append.mp hf with hl | hr
      · exact ⟨p, List.mem_cons_self _ _, O, hO, hl⟩
      · obtain ⟨q, hq, Oq, hOq, hfOq⟩ := hchar' f hr
        exact ⟨q, List.mem_cons_of_mem _ hq, Oq, hOq, hfOq⟩

/-! ### Small arithmetic helpers -/

theorem truncQ_nonneg (q : ℚ) (h : 0 ≤ q) : 0 ≤ truncQ q :=
  Int.tdiv_nonneg (Rat.num_nonneg.mpr h) (by positivity)

/-! ### Claim C5: constructor validation -/

/-- Claim C5: constructing a `WorkflowRecipe` with `runtime_factor`,
`input_file_size_factor` or `output_file_size_factor` at most `0.0` fails
with a ValueError before any engine state exists (the error carries no
state), and construction with all three factors strictly positive succeeds,
yielding the fully initialized engine state (empty caches and maps, task-id
counter 1). -/
theorem C5_constructor_validation (name : String) (df nt : Option Int)
    (rf fi fo : ℚ) :
    ((rf ≤ 0 ∨ fi ≤ 0 ∨ fo ≤ 0) →
      ∃ msg, WorkflowRecipe_init name df nt rf fi fo =
        Except.error (Err.valueError msg)) ∧
    (0 < rf → 0 < fi → 0 < fo →
      WorkflowRecipe_init name df nt rf fi fo = Except.ok
        { name := name, data_footprint := df, num_tasks := nt,
          runtime_factor := rf, input_file_size_factor := fi,
          output_file_size_factor := fo,
          tasks_files := [], tasks_files_names := [], task_id_counter := 1,
          tasks_map := [], tasks_children := [], tasks_parents := [],
          tasks_output_files := [], uuid_ctr := 0 }) := by
  constructor
  · intro h
    by_cases h1 : rf ≤ 0
    · exact ⟨_, by rw [WorkflowRecipe_init, if_pos h1]⟩
    · by_cases h2 : fi ≤ 0
      · exact ⟨_, by rw [WorkflowRecipe_init, if_neg h1, if_pos h2]⟩
      · by_cases h3 : fo ≤ 0
        · exact ⟨_, by rw [WorkflowRecipe_init, if_neg h1, if_neg h2, if_pos h3]⟩
        · tauto
  · intro h1 h2 h3
    rw [WorkflowRecipe_init, if_neg (not_le.mpr h1), if_neg (not_le.mpr h2),
      if_neg (not_le.mpr h3)]

/-- Witness for C5: the factor `0` is rejected with the ValueError, and the
factors `1/2`, `2`, `1` are accepted. -/
theorem C5_witness :
    (∃ msg, WorkflowRecipe_init "wf" none none 0 1 1 =
      Except.error (Err.valueError msg)) ∧
    WorkflowRecipe_init "wf" none none (1/2) 2 1 = Except.ok
      { name := "wf", data_footprint := none, num_tasks := none,
        runtime_factor := 1/2, input_file_size_factor := 2,
        output_file_size_factor := 1,
        tasks_files := [], tasks_files_names := [], task_id_counter := 1,
        tasks_map := [], tasks_children := [], tasks_parents := [],
        tasks_output_files := [], uuid_ctr := 0 } :=
  ⟨(C5_constructor_validation "wf" none none 0 1 1).1 (Or.inl (by norm_num)),
   (C5_constructor_validation "wf" none none (1/2) 2 1).2 (by norm_num)
     (by norm_num) (by norm_num)⟩

/-! ### Claim C7: the file-size formula of `_generate_file` -/

/-- Claim C7: for every extension and link direction, `_generate_file`
returns a file of size `int(factor * S)` where `S` is the sampler's value
for the extension's recipe entry and `factor` is the input factor for INPUT
links and the output factor for OUTPUT links; the file's name is the fresh
uuid token paired with the extension verbatim, and the fresh counter
advances. -/
theorem C7_generate_file_formula (ctx : Ctx) (s : EngineState) (ext : String)
    (recipe : List (String × RVSpec)) (link : FileLink) (spec : RVSpec)
    (h : lookupA recipe ext = some spec) :
    _generate_file ctx s ext recipe link = Except.ok
      ({ name := { token := s.uuid_ctr, ext := ext }, link := link,
         size := truncQ ((match link with
           | FileLink.input => s.input_file_size_factor
           | FileLink.output => s.output_file_size_factor) * ctx.sampler spec) },
       { s with uuid_ctr := s.uuid_ctr + 1 }) := by
  cases link <;> simp [_generate_file, h]

/-- Witness for C7: with the constant sampler 3 and both factors 1, the
generated `.o` OUTPUT file has size `int(1 * 3) = 3` and name token 0. -/
theorem C7_witness :
    lookupA [(".o", wSpec)] ".o" = some wSpec ∧
    _generate_file wCtx sInit ".o" [(".o", wSpec)] FileLink.output = Except.ok
      ({ name := { token := 0, ext := ".o" }, link := FileLink.output, size := 3 },
       { sInit with uuid_ctr := 1 }) := by
  refine ⟨by decide, ?_⟩
  rw [C7_generate_file_formula wCtx sInit ".o" [(".o", wSpec)] FileLink.output wSpec
    (by decide)]
  norm_num [wCtx, sInit, wSpec, truncQ]

/-! ### Claim C8: generated file sizes are non-negative -/

/-- Claim C8 (sampler modelled from the spec's §6 contract — `generate_rvs`
is not under src/): for any sampler whose value is usable as a byte size
after scaling (non-negative) and any engine whose size factors are
non-negative (the constructor enforces strict positivity), every file
`_generate_file` creates has a non-negative integer size. -/
theorem C8_generated_size_nonneg (ctx : Ctx) (s : EngineState) (ext : String)
    (recipe : List (String × RVSpec)) (link : FileLink) (spec : RVSpec)
    (f : File) (s' : EngineState) (h : lookupA recipe ext = some spec)
    (hs : 0 ≤ ctx.sampler spec) (hif : 0 ≤ s.input_file_size_factor)
    (hof : 0 ≤ s.output_file_size_factor)
    (hok : _generate_file ctx s ext recipe link = Except.ok (f, s')) :
    0 ≤ f.size := by
  unfold _generate_file at hok
  rw [h] at hok
  simp only [Except.ok.injEq, Prod.mk.injEq] at hok
  obtain ⟨hf, _⟩ := hok
  rw [← hf]
  apply truncQ_nonneg
  apply mul_nonneg _ hs
  by_cases hl : link = FileLink.input
  · simp [hl, hif]
  · simp [hl, hof]

/-- Witness for C8: the concrete generated file of the witness scenario has
non-negative size. -/
theorem C8_witness :
    ∃ f s', _generate_file wCtx sInit ".o" [(".o", wSpec)] FileLink.input =
      Except.ok (f, s') ∧ 0 ≤ f.size := by
  have hgen : _generate_file wCtx sInit ".o" [(".o", wSpec)] FileLink.input =
      Except.ok ({ name := { token := 0, ext := ".o" }, link := FileLink.input, size := 3 },
        { sInit with uuid_ctr := 1 }) := by
    norm_num [_generate_file, lookupA, wCtx, sInit, wSpec, truncQ]
  refine ⟨{ name := { token := 0, ext := ".o" }, link := FileLink.input, size := 3 },
    { sInit with uuid_ctr := 1 }, hgen, ?_⟩
  exact C8_generated_size_nonneg wCtx sInit ".o" [(".o", wSpec)] FileLink.input wSpec
    { name := { token := 0, ext := ".o" }, link := FileLink.input, size := 3 }
    { sInit with uuid_ctr := 1 } (by decide) (by norm_num [wCtx])
    (by norm_num [sInit]) (by norm_num [sInit]) hgen

/-! ### Claim C9: task-name generation -/

/-- Claim C9: starting from a freshly constructed engine (task-id counter 1),
the `n`-th `_generate_task_name` call (with any prefix each time) returns
the prefix, an underscore and the `08d`-formatted counter value `n+1`; the
counter — one per engine instance, shared by all prefixes — advances to
`n+2`, so suffix integers are strictly increasing and globally unique within
the instance, and the suffix is exactly eight digits while `n+1 < 10^8`. -/
theorem C9_task_name_monotonic (s : EngineState) (pres : Nat → String)
    (h : s.task_id_counter = 1) :
    ∀ n, (nthNameState s pres n).1 = pres n ++ "_" ++ (⟨pad8 (n + 1)⟩ : String) ∧
      (nthNameState s pres n).2.task_id_counter = n + 2 ∧
      (n + 1 < 100000000 → (pad8 (n + 1)).length = 8) := by
  intro n
  induction n with
  | zero =>
    refine ⟨?_, ?_, fun h8 => pad8_length 1 h8⟩
    · simp [nthNameState, _generate_task_name, h]
    · simp [nthNameState, _generate_task_name, h]
  | succ n ih =>
    refine ⟨?_, ?_, fun h8 => pad8_length (n + 2) h8⟩
    · show (_generate_task_name (nthNameState s pres n).2 (pres (n + 1))).1 = _
      rw [_generate_task_name, ih.2.1]
    · show (_generate_task_name (nthNameState s pres n).2 (pres (n + 1))).2.task_id_counter = _
      rw [_generate_task_name]
      simp [ih.2.1]

/-- Witness for C9: the first two names for the prefix "task" are
`task_00000001` and `task_00000002`. -/
theorem C9_witness :
    sInit.task_id_counter = 1 ∧
    (nthNameState sInit (fun _ => "task") 0).1 = "task_00000001" ∧
    (nthNameState sInit (fun _ => "task") 1).1 = "task_00000002" := by
  refine ⟨by decide, ?_, ?_⟩
  · rw [(C9_task_name_monotonic sInit (fun _ => "task") (by decide) 0).1]
    decide
  · rw [(C9_task_name_monotonic sInit (fun _ => "task") (by decide) 1).1]
    decide

/-! ### Claim C10: the hidden precondition of `_generate_task` -/

/-- Claim C10 (amended): `_generate_task` requires its `task_id` argument to
contain the substring `'_0'` (equivalently, a `'_0'`-split with at least two
pieces): without it the call fails with an IndexError. When it succeeds, the
created Task's `task_id` field is `'0'` concatenated with the SECOND piece
of the full `'_0'`-split — the portion strictly between the first and second
occurrences of `'_0'` (everything after the first occurrence only when it
occurs once) — while the Task's `name` field keeps the argument verbatim. -/
theorem C10_task_id_field (ctx : Ctx) (s : EngineState)
    (task_name task_id : String) (rec : TaskRecipe)
    (hrec : lookupA ctx.recipe task_name = some rec) :
    ((pySplit task_id "_0").drop 1 = [] →
      _generate_task ctx s task_name task_id = Except.error Err.indexError) ∧
    (∀ part l, (pySplit task_id "_0").drop 1 = part :: l →
      ∃ t s', _generate_task ctx s task_name task_id = Except.ok (t, s') ∧
        t.task_id = "0" ++ part ∧ t.name = task_id) := by
  constructor
  · intro h
    simp only [_generate_task, hrec, h]
  · intro part l h
    simp only [_generate_task, hrec, h]
    exact ⟨_, _, rfl, rfl, rfl⟩

/-- Counterexample for C10 as stated: on `task_id = "x_0y_0z"` (two
occurrences of `'_0'`), the created Task's `task_id` field is `"0y"`, not
`'0'` + the portion after the FIRST occurrence (which would be `"0y_0z"`). -/
theorem C10_counterexample :
    _generate_task wCtx sInit "comp" "x_0y_0z" = Except.ok (tX, sX) ∧
    tX.task_id = "0y" ∧ tX.task_id ≠ "0" ++ "y_0z" := by
  refine ⟨?_, by decide, by decide⟩
  norm_num [_generate_task, lookupA, wCtx, sInit, wSpec, wRec, round3, truncQ, tX, sX]
  decide

/-- Witness for C10: `"abc"` (no `'_0'`) raises the IndexError; the generated
name `"comp_00000001"` succeeds with `task_id` field `"00000001"`. -/
theorem C10_witness :
    _generate_task wCtx sInit "comp" "abc" = Except.error Err.indexError ∧
    (∃ t s', _generate_task wCtx sInit "comp" "comp_00000001" = Except.ok (t, s') ∧
      t.task_id = "0" ++ "0000001" ∧ t.name = "comp_00000001") := by
  constructor
  · exact (C10_task_id_field wCtx sInit "comp" "abc" wRec (by decide)).1 (by decide)
  · exact (C10_task_id_field wCtx sInit "comp" "comp_00000001" wRec (by decide)).2
      "0000001" [] (by decide)

/-! ### Concrete facts shared by the witnesses -/

theorem Inv_wSC : Inv wSC := by
  unfold Inv
  decide

theorem ParentDepth_wSC : ParentDepth wSC wD := by
  unfold ParentDepth
  decide

/-- The concrete witness run: resolving the child's files generates its
output (token 0), recursively generates the parent's output (token 1),
memoizes the parent and links its output as the child's input. -/
theorem run_wTC : genTaskFiles wCtx 3 wTC wSC = Except.ok (wOuts, wSfin) := by
  norm_num [genTaskFiles, resolveParentsF, _generate_files, genFilesGo,
    _generate_file, appendInputs, firstWins, _get_files_by_task_and_link,
    extDesc, afterLastDot, lookupA, upd, appendAt, truncQ, wCtx, wSC, wSpec,
    wRec, wTC, wTP, sInit, wOuts, wSfin, wFout0, wFout1, wFin1]
  decide

/-! ### Claim C1: parent outputs become child inputs -/

/-- Claim C1: for a child task whose stored files at call time are all
OUTPUT-linked (as for a freshly generated task) and whose outputs are not
yet memoized, after a successful `_generate_task_files` call on the child
every parent listed for it in the parent-adjacency map has its OUTPUT file
list memoized, and every file of that list appears among the child's
INPUT-linked files (as `_get_files_by_task_and_link` returns them) with the
same name and the same size. Acyclicity of the parent map — a precondition
the spec places on the assembler — enters as the depth function `D`. -/
theorem C1_parent_outputs_become_inputs (ctx : Ctx) (D : String → Nat)
    (fuel : Nat) (child : Task) (s : EngineState) (outs : List File)
    (s' : EngineState) (hInv : Inv s) (hPD : ParentDepth s D)
    (hfresh : ∀ f ∈ (lookupA s.tasks_files child.name).getD [],
      f.link = FileLink.output)
    (hmiss : lookupA s.tasks_output_files child.name = none)
    (hok : genTaskFiles ctx fuel child s = Except.ok (outs, s')) :
    ∀ p ∈ (lookupA s.tasks_parents child.name).getD [], ∃ O,
      lookupA s'.tasks_output_files p = some O ∧
      ∀ f ∈ O, ∃ g ∈ (_get_files_by_task_and_link s' child.name
        FileLink.input).getD [], g.name = f.name ∧ g.size = f.size := by
  have post := genTaskFiles_post ctx D fuel child s outs s' hInv hPD hok
  intro p hp
  obtain ⟨O, hO, hmatch⟩ := post.miss_inputs hmiss hfresh p hp
  refine ⟨O, hO, ?_⟩
  intro f hf
  obtain ⟨g, hgmem, hgl, hgn, hgs⟩ := hmatch f hf
  refine ⟨g, ?_, hgn, hgs⟩
  cases hlk : lookupA s'.tasks_files child.name with
  | none =>
    rw [hlk, Option.getD_none] at hgmem
    exact absurd hgmem (List.not_mem_nil g)
  | some fs2 =>
    rw [hlk, Option.getD_some] at hgmem
    unfold _get_files_by_task_and_link
    rw [hlk]
    show g ∈ fs2.filter (fun f => f.link == FileLink.input)
    exact List.mem_filter.mpr ⟨hgmem, by simp [hgl]⟩

/-- Witness for C1: in the witness run's final state the parent
`comp_00000001` is memoized and its output file reappears, with the same
name and size, among the child's INPUT files. -/
theorem C1_witness : ∃ O,
    lookupA wSfin.tasks_output_files "comp_00000001" = some O ∧
    ∀ f ∈ O, ∃ g ∈ (_get_files_by_task_and_link wSfin wTC.name
      FileLink.input).getD [], g.name = f.name ∧ g.size = f.size :=
  C1_parent_outputs_become_inputs wCtx wD 3 wTC wSC wOuts wSfin Inv_wSC
    ParentDepth_wSC (by decide) (by decide) run_wTC "comp_00000001" (by decide)

/-! ### Claim C2: idempotence of a second call -/

/-- Counterexample to claim C2 as stated: with a dot-free OUTPUT extension
key (`"obj"`), the extension descriptor of a generated file (`splitext`
suffix) never matches the key, so a second `_generate_task_files` call on
the same task — the task itself is never memoized — generates a second
file: the two calls return OUTPUT lists that differ by name, and the second
call consumes a fresh uuid (a new File object). -/
theorem C2_counterexample :
    genTaskFiles bCtx 2 wTB sB0 = Except.ok ([bF0], sB1) ∧
    genTaskFiles bCtx 2 wTB sB1 = Except.ok ([bF0, bF1], sB2) ∧
    [bF0, bF1].map (fun f => (f.name, f.size)) ≠
      [bF0].map (fun f => (f.name, f.size)) ∧
    sB2.uuid_ctr = sB1.uuid_ctr + 1 := by
  refine ⟨?_, ?_, by decide, by decide⟩
  · norm_num [genTaskFiles, resolveParentsF, _generate_files, genFilesGo,
      _generate_file, appendInputs, firstWins, _get_files_by_task_and_link,
      extDesc, afterLastDot, lookupA, upd, appendAt, truncQ, bCtx, sB0, sB1,
      wTB, wSpec, sInit, bF0, bF1]
  · norm_num [genTaskFiles, resolveParentsF, _generate_files, genFilesGo,
      _generate_file, appendInputs, firstWins, _get_files_by_task_and_link,
      extDesc, afterLastDot, lookupA, upd, appendAt, truncQ, bCtx, sB0, sB1,
      sB2, wTB, wSpec, sInit, bF0, bF1]
    decide

/-- Claim C2 (amended): a second `_generate_task_files` call on the same
task returns the same OUTPUT list and leaves the engine state completely
untouched (in particular, no new File objects exist anywhere) provided
every extension key of the task's recipe is a proper dotted key — a dot
followed by a dot-free suffix — so that generated files cover their keys.
The second call is again a memo miss (the task itself is never memoized),
but it regenerates no file, all its parents memo-hit, and every candidate
input is already present by name. For dot-free or multi-dot keys
idempotence fails (see the counterexample). -/
theorem C2_second_call_identical (ctx : Ctx) (D : String → Nat)
    (fuel1 fuel2 : Nat) (t : Task) (s : EngineState) (outs1 : List File)
    (s1 : EngineState) (rec : TaskRecipe) (hInv : Inv s)
    (hPD : ParentDepth s D)
    (hmiss : lookupA s.tasks_output_files t.name = none)
    (hfresh : ∀ f ∈ (lookupA s.tasks_files t.name).getD [],
      f.link = FileLink.output)
    (hrec : lookupA ctx.recipe t.category = some rec)
    (hgoodO : ∀ ks ∈ rec.output, goodExtB ks.1 = true)
    (hgoodI : ∀ ks ∈ rec.input, goodExtB ks.1 = true)
    (hok : genTaskFiles ctx fuel1 t s = Except.ok (outs1, s1)) :
    genTaskFiles ctx (fuel2 + 2) t s1 = Except.ok (outs1, s1) := by
  have post := genTaskFiles_post ctx D fuel1 t s outs1 s1 hInv hPD hok
  obtain ⟨fs', hfs', houts⟩ := post.miss_filter hmiss
  have hmiss1 : lookupA s1.tasks_output_files t.name = none := post.miss_self hmiss
  -- the OUTPUT-generation pass of the second call regenerates nothing
  have hcovO : ∀ ks ∈ rec.output,
      ks.1 ∈ (fs'.filter (fun f => f.link == FileLink.output)).filterMap extDesc := by
    intro ks hks
    have h1 := post.miss_cover_out hmiss rec hrec ks hks (hgoodO ks hks)
    rwa [hfs', Option.getD_some] at h1
  have hgenO := generate_files_covered ctx s1 t.name rec.output FileLink.output
    fs' hfs' hcovO
  -- every parent memo-hits, so parent resolution leaves the state unchanged
  have hmap1 : ∀ p ∈ (lookupA s1.tasks_parents t.name).getD [], ∃ pt,
      lookupA s1.tasks_map p = some pt ∧ pt.name = p := by
    intro p hp
    rw [post.evol.tpar] at hp
    obtain ⟨pt, hpt⟩ := post.miss_pmap hmiss p hp
    refine ⟨pt, ?_, hInv.2.2.1 (p, pt) (mem_of_lookupA _ _ _ hpt)⟩
    rw [post.evol.tmap]
    exact hpt
  have hmemo1 : ∀ p ∈ (lookupA s1.tasks_parents t.name).getD [], ∃ O,
      lookupA s1.tasks_output_files p = some O := by
    intro p hp
    rw [post.evol.tpar] at hp
    exact post.miss_parents hmiss p hp
  obtain ⟨ins, hres, hchar⟩ := resolveParents_allhit ctx fuel2
    ((lookupA s1.tasks_parents t.name).getD []) s1 hmap1 hmemo1
  -- every candidate input is already listed for the task by name
  have hnames1 : lookupA s1.tasks_files_names t.name = some (fs'.map File.name) := by
    rw [post.inv.1, lookupA_mirror, hfs']
    rfl
  have happ : appendInputs s1 t.name ins = s1 := by
    apply appendInputs_noop
    intro f hf
    rw [hnames1, Option.getD_some]
    obtain ⟨p, hp, O, hO, hfO⟩ := hchar f hf
    have hps : p ∈ (lookupA s.tasks_parents t.name).getD [] := by
      rw [← post.evol.tpar]
      exact hp
    obtain ⟨O2, hO2, hOin⟩ := post.miss_inputs hmiss hfresh p hps
    rw [hO] at hO2
    obtain rfl := Option.some.inj hO2
    obtain ⟨g, hg, hgl, hgn, hgs⟩ := hOin f hfO
    rw [hfs', Option.getD_some] at hg
    exact hgn ▸ List.mem_map_of_mem File.name hg
  -- the INPUT-generation pass of the second call regenerates nothing
  have hcovI : ∀ ks ∈ rec.input,
      ks.1 ∈ (fs'.filter (fun f => f.link == FileLink.input)).filterMap extDesc := by
    intro ks hks
    have h1 := post.miss_cover_in hmiss rec hrec ks hks (hgoodI ks hks)
    rwa [hfs', Option.getD_some] at h1
  have hgenI := generate_files_covered ctx s1 t.name rec.input FileLink.input
    fs' hfs' hcovI
  have houts' : fs'.filter (fun f => f.link == FileLink.output) = outs1 := houts.symm
  conv_lhs => rw [genTaskFiles]
  rw [hmiss1, hrec]
  dsimp only
  rw [hgenO]
  dsimp only
  rw [hres]
  dsimp only
  rw [happ, hgenI]
  dsimp only
  rw [houts']

/-- Witness for C2 (amended): rerunning the child's file generation on the
witness run's final state returns the same OUTPUT list and the same state. -/
theorem C2_witness : genTaskFiles wCtx 3 wTC wSfin = Except.ok (wOuts, wSfin) :=
  C2_second_call_identical wCtx wD 3 1 wTC wSC wOuts wSfin wRec Inv_wSC
    ParentDepth_wSC (by decide) (by decide) (by decide) (by decide) (by decide)
    run_wTC

/-! ### Claim C3: where the output-file memo is written -/

/-- Counterexample to claim C3 as stated: running `_generate_task_files` on
the not-yet-memoized parentless task `wTP` succeeds with a nonempty OUTPUT
list, yet afterwards the output-file memo still has no entry under the
task's own name — the code writes the memo only for resolved parents
(source lines 211-212), never for the task itself, so a later direct call
does not take the memo-hit path. -/
theorem C3_counterexample :
    genTaskFiles wCtx 2 wTP wSC = Except.ok ([wFout0], sPfin) ∧
    ([wFout0] : List File) ≠ [] ∧
    lookupA sPfin.tasks_output_files wTP.name = none := by
  refine ⟨?_, by decide, by decide⟩
  norm_num [genTaskFiles, resolveParentsF, _generate_files, genFilesGo,
    _generate_file, appendInputs, firstWins, _get_files_by_task_and_link,
    extDesc, afterLastDot, lookupA, upd, appendAt, truncQ, wCtx, wSC, wSpec,
    wRec, wTC, wTP, sInit, sPfin, wFout0]
  decide

/-- Claim C3 (amended): after a successful `_generate_task_files` call on a
task `t` with no prior memo entry, what gets recorded in the output-file
memo are the outputs of `t`'s resolved parents — every parent listed for
`t` has a memo entry afterwards — while `t` itself still has none: the memo
is written only at the parent-resolution site, so a later direct call on
`t` is again a memo miss. -/
theorem C3_memo_written_for_parents_only (ctx : Ctx) (D : String → Nat)
    (fuel : Nat) (t : Task) (s : EngineState) (outs : List File)
    (s' : EngineState) (hInv : Inv s) (hPD : ParentDepth s D)
    (hmiss : lookupA s.tasks_output_files t.name = none)
    (hok : genTaskFiles ctx fuel t s = Except.ok (outs, s')) :
    (∀ p ∈ (lookupA s.tasks_parents t.name).getD [], ∃ O,
      lookupA s'.tasks_output_files p = some O) ∧
    lookupA s'.tasks_output_files t.name = none := by
  have post := genTaskFiles_post ctx D fuel t s outs s' hInv hPD hok
  exact ⟨post.miss_parents hmiss, post.miss_self hmiss⟩

/-- Witness for C3 (amended): after the witness run on the child, the
parent `comp_00000001` is memoized while the child itself is not. -/
theorem C3_witness :
    (∃ O, lookupA wSfin.tasks_output_files "comp_00000001" = some O) ∧
    lookupA wSfin.tasks_output_files wTC.name = none := by
  have h := C3_memo_written_for_parents_only wCtx wD 3 wTC wSC wOuts wSfin
    Inv_wSC ParentDepth_wSC (by decide) run_wTC
  exact ⟨h.1 "comp_00000001" (by decide), h.2⟩

/-! ### Claim C4: no duplicate input names, first wins -/

/-- Claim C4: after any successful `_generate_task_files` run from a
well-formed state, every task's INPUT-linked files have pairwise-distinct
names; moreover the input-append loop realizes first-seen-wins dedup:
appending candidates `l` to a task holding files `fs` stores exactly `fs`
followed by `firstWins (fs.map File.name) l`, which keeps the first
candidate of each name not already present, in encounter order, and drops
later candidates of a name already seen. -/
theorem C4_no_duplicate_input_names (ctx : Ctx) (D : String → Nat)
    (fuel : Nat) (t : Task) (s : EngineState) (outs : List File)
    (s' : EngineState) (hInv : Inv s) (hPD : ParentDepth s D)
    (hok : genTaskFiles ctx fuel t s = Except.ok (outs, s')) :
    (∀ k fs, lookupA s'.tasks_files k = some fs →
      ((fs.filter (fun f => f.link == FileLink.input)).map File.name).Nodup) ∧
    (∀ (l : List File) (tid : String) (fs : List File),
      lookupA s'.tasks_files tid = some fs →
      (∀ f ∈ l, f.name.token < s'.uuid_ctr) →
      lookupA (appendInputs s' tid l).tasks_files tid =
        some (fs ++ firstWins (fs.map File.name) l)) := by
  have post := genTaskFiles_post ctx D fuel t s outs s' hInv hPD hok
  constructor
  · intro k fs hk
    have hnd : (fs.map File.name).Nodup :=
      post.inv.2.2.2.2.2.1 (k, fs) (mem_of_lookupA _ _ _ hk)
    exact hnd.sublist (List.Sublist.map File.name (List.filter_sublist fs))
  · intro l tid fs hk htok
    exact (appendInputs_spec l s' tid fs post.inv hk htok).2.1

/-- Witness for C4: in the witness run's final state, the child's
INPUT-linked files have pairwise-distinct names. -/
theorem C4_witness :
    ((([wFout0, wFin1].filter (fun f => f.link == FileLink.input)).map
      File.name).Nodup) :=
  (C4_no_duplicate_input_names wCtx wD 3 wTC wSC wOuts wSfin Inv_wSC
    ParentDepth_wSC run_wTC).1 "comp_00000002" [wFout0, wFin1] (by decide)

/-! ### Claim C6: unknown category fails with the lookup error -/

/-- Claim C6: a category absent from the recipe table makes both
`_generate_task` and `_generate_task_files` fail with the KeyError carrying
the category (the error propagates out of the call, nothing recovers it),
while a category present in the table lets `_generate_task` succeed (given
a task id containing the `'_0'` separator) and lets `_generate_task_files`
succeed (given a well-formed state in which the task has a file list and no
parents to resolve). -/
theorem C6_unknown_category_keyerror (ctx : Ctx) :
    (∀ s cat tid, lookupA ctx.recipe cat = none →
      _generate_task ctx s cat tid = Except.error (Err.keyError cat)) ∧
    (∀ fuel t s, lookupA ctx.recipe t.category = none →
      lookupA s.tasks_output_files t.name = none →
      genTaskFiles ctx (fuel + 1) t s = Except.error (Err.keyError t.category)) ∧
    (∀ s cat tid rec part l, lookupA ctx.recipe cat = some rec →
      (pySplit tid "_0").drop 1 = part :: l →
      ∃ r, _generate_task ctx s cat tid = Except.ok r) ∧
    (∀ fuel t s rec fs, Inv s →
      lookupA ctx.recipe t.category = some rec →
      lookupA s.tasks_output_files t.name = none →
      lookupA s.tasks_files t.name = some fs →
      lookupA s.tasks_parents t.name = none →
      ∃ r, genTaskFiles ctx (fuel + 1) t s = Except.ok r) := by
  refine ⟨?_, ?_, ?_, ?_⟩
  · intro s cat tid hnone
    simp only [_generate_task, hnone]
  · intro fuel t s hnone hmissT
    simp only [genTaskFiles, hmissT, hnone]
  · intro s cat tid rec part l hrec hsplit
    simp only [_generate_task, hrec, hsplit]
    exact ⟨_, rfl⟩
  · intro fuel t s rec fs hInv hrec hmissT hfiles hnopar
    obtain ⟨⟨res1, s1⟩, hgen1⟩ := generate_files_ok ctx s t.name rec.output
      FileLink.output fs hfiles
    obtain ⟨fs0, new1, hk0, hres1, hInv1, hpost1, hcov1, hkeys1⟩ :=
      generate_files_spec ctx s t.name rec.output FileLink.output res1 s1
        hInv hgen1
    have hpar1 : (lookupA s1.tasks_parents t.name).getD [] = ([] : List String) := by
      have htp : s1.tasks_parents = s.tasks_parents :=
        hpost1.fo.2.2.2.2.2.2.2.2.2
      rw [htp, hnopar]
      rfl
    obtain ⟨⟨res2, s4⟩, hgen2⟩ := generate_files_ok ctx s1 t.name rec.input
      FileLink.input (fs0 ++ new1) hpost1.files_tid
    refine ⟨(res1, s4), ?_⟩
    simp only [genTaskFiles, hmissT, hrec, hgen1, hpar1, resolveParentsF,
      appendInputs, hgen2]

/-- Witness for C6: the absent category `"nope"` yields the KeyError from
both functions; the present category `"comp"` lets both succeed. -/
theorem C6_witness :
    _generate_task wCtx sInit "nope" "tsk_001" =
      Except.error (Err.keyError "nope") ∧
    genTaskFiles wCtx 1 wTBad wSC = Except.error (Err.keyError "nope") ∧
    (∃ r, _generate_task wCtx sInit "comp" "tsk_001" = Except.ok r) ∧
    (∃ r, genTaskFiles wCtx 1 wTP wSC = Except.ok r) := by
  have h := C6_unknown_category_keyerror wCtx
  refine ⟨h.1 sInit "nope" "tsk_001" (by decide), ?_, ?_, ?_⟩
  · exact h.2.1 0 wTBad wSC (by decide) (by decide)
  · exact h.2.2.1 sInit "comp" "tsk_001" wRec "01" [] (by decide) (by decide)
  · exact h.2.2.2 0 wTP wSC wRec [] Inv_wSC (by decide) (by decide) (by decide)
      (by decide)

end WfRecipe
